import Mathlib

/-!
Template render errors (`internal/pkg/errors/render.go`).

A shallow embedding of the error classification code of `render.go`:
the pattern `reExecError`, `ErrRenderError.As`, the two `Error()` methods,
`validValues`, `didYouMean` and the key flattener `getAllKeys` / `getKeys`.

Conventions of the embedding.

* A Go string is the list of its runes (`Str`); the texts are taken to be valid UTF-8.
* An `error` value is represented by the text its `Error()` method returns.
* A `map[string]interface{}` is the sequence of its entries in the order in which
  `range` enumerates them (`Binding`); a value stored in it is either a nested
  `map[string]interface{}` or anything else (`Value.scalar`).
* A pointer target is passed as the struct it points to, and the struct after the
  call is returned next to the boolean.
* The library functions the code calls (`regexp.FindStringSubmatch`, the verbs `%q`
  and `%s` of `fmt.Sprintf`, `strings.Contains`, `strings.TrimSuffix`, `strings.Join`,
  `levenshtein.DistanceForStrings` with `levenshtein.DefaultOptions`) are embedded as
  their packages define them.
* For `NewErrRenderError`, where the maps are shared and copied, the maps live in a
  heap (`Heap`) and a binding is the address of its map; `readBinding` gives the
  binding that an address holds.
* Numbers of type `int` are natural numbers: every distance is bounded by the sum of
  the lengths of the two texts, far below the range of `int`.
-/

namespace NomadPack

/-- A Go string as the list of its runes. -/
abbrev Str := List Char

/-- The line feed rune, the only rune that `.` does not match. -/
def newline : Char := Char.ofNat 10

/-- The double quote rune. -/
def dquote : Char := Char.ofNat 34

/-- The backslash rune. -/
def backslash : Char := Char.ofNat 92

/-! ## The pattern `reExecError` -/

/-- Matching a literal piece of the pattern at the head of the text: the rest of the
text behind the literal, or `none` when the text does not start with it. -/
def dropLit : Str → Str → Option Str
  | [], s => some s
  | _ :: _, [] => none
  | a :: l, b :: s => if a = b then dropLit l s else none

/-- A greedy `.*` followed by the rest `k` of the pattern, as a backtracking search
runs it: `.` takes any rune but the line feed, the longest run is tried first and one
rune is given back at a time until `k` matches. The result is the text captured by
`.*` together with the result of `k`. -/
def dotStar {α : Type} (k : Str → Option α) : Str → Option (Str × α)
  | [] => (k []).map (fun r => ([], r))
  | c :: cs =>
    if c = newline then (k (c :: cs)).map (fun r => ([], r))
    else
      match dotStar k cs with
      | some (cap, r) => some (c :: cap, r)
      | none => (k (c :: cs)).map (fun r => ([], r))

/-- The four named groups of a match of `reExecError`. -/
structure Submatch where
  /-- Group `Template`. -/
  Template : Str
  /-- Group `Executing`. -/
  Executing : Str
  /-- Group `At`. -/
  At : Str
  /-- Group `Err`. -/
  Err : Str
deriving DecidableEq, Repr

/-- The literal `template: ` of the pattern. -/
def litTemplate : Str := "template: ".toList

/-- The literal `: executing "` of the pattern. -/
def litExecuting : Str := ": executing \"".toList

/-- The literal `" at <` of the pattern. -/
def litAt : Str := "\" at <".toList

/-- The literal `>: ` of the pattern. -/
def litErr : Str := ">: ".toList

/-- The end of the pattern behind group `At`: `>: (?P<Err>.*)`. The last `.*` has
nothing behind it and takes the rest of the line. -/
def matchErr (s : Str) : Option Str :=
  (dropLit litErr s).map fun s1 => s1.takeWhile (fun c => c != newline)

/-- The pattern behind group `Executing`: `" at <(?P<At>.*)>: (?P<Err>.*)`. -/
def matchAt (s : Str) : Option (Str × Str) :=
  (dropLit litAt s).bind (dotStar matchErr)

/-- The pattern behind group `Template`:
`: executing "(?P<Executing>.*)" at <(?P<At>.*)>: (?P<Err>.*)`. -/
def matchExecuting (s : Str) : Option (Str × Str × Str) :=
  (dropLit litExecuting s).bind (dotStar matchAt)

/-- The pattern
`(?m)template: (?P<Template>.*): executing "(?P<Executing>.*)" at <(?P<At>.*)>: (?P<Err>.*)`
matched at the head of the text. The flag `(?m)` changes `^` and `$` only, which the
pattern does not use. -/
def matchHere (s : Str) : Option Submatch :=
  (dropLit litTemplate s).bind fun s1 =>
    (dotStar matchExecuting s1).map fun r => ⟨r.1, r.2.1, r.2.2.1, r.2.2.2⟩

/-- The function `regexp.FindStringSubmatch` for `reExecError`: the leftmost match, and
at that start the match a backtracking search finds first (the leftmost-first rule of
Go's regexp package); `none` stands for the nil slice of a text without match. -/
def FindStringSubmatch : Str → Option Submatch
  | [] => matchHere []
  | c :: cs =>
    match matchHere (c :: cs) with
    | some m => some m
    | none => FindStringSubmatch cs

/-! ## Bindings and the flattener -/

mutual
/-- A value stored in a binding: a nested `map[string]interface{}` or anything else. -/
inductive Value where
  | scalar : Value
  | map : Binding → Value
/-- A `map[string]interface{}` as its entries in enumeration order. -/
inductive Binding where
  | nil : Binding
  | cons : Str → Value → Binding → Binding
end

mutual
/-- The function `getKeys`: every entry appends `path + "." + k` to the collector and,
when its value is a nested map, then the keys of that map under the new path. -/
def getKeys : Binding → Str → List Str → List Str
  | .nil, _, collector => collector
  | .cons k v rest, path, collector =>
    getKeys rest path
      (getKeysValue v (path ++ '.' :: k) (collector ++ [path ++ '.' :: k]))
/-- The type switch of `getKeys` on the value of an entry. -/
def getKeysValue : Value → Str → List Str → List Str
  | .scalar, _, collector => collector
  | .map x, path, collector => getKeys x path collector
end

/-- The function `getAllKeys`. -/
def getAllKeys (inMap : Binding) : List Str :=
  getKeys inMap [] []

/-! ## The error types and `As` -/

/-- The struct `ErrRenderError`; `err` is the text of the wrapped error. -/
structure ErrRenderError where
  /-- Text of the wrapped error. -/
  err : Str
  /-- Snapshot of the binding. -/
  vars : Binding

/-- The struct `ErrTemplateExecError`. -/
structure ErrTemplateExecError where
  /-- Text of the wrapped error. -/
  Err : Str
  /-- Group `Template` of the match. -/
  Template : Str
  /-- Group `Executing` of the match. -/
  Executing : Str
  /-- Group `At` of the match. -/
  At : Str
  /-- Group `Err` of the match. -/
  ErrText : Str
  /-- The binding of the render error. -/
  vars : Binding

/-- The struct `ErrTemplateNilPointerError`, which embeds `ErrTemplateExecError`. -/
structure ErrTemplateNilPointerError extends ErrTemplateExecError

/-- The targets `As` tells apart in its type switch. -/
inductive Target where
  | exec : ErrTemplateExecError → Target
  | nilPointer : ErrTemplateNilPointerError → Target
  | other : Target

/-- The function `strings.Contains`. -/
def Contains : Str → Str → Bool
  | [], sub => sub.isEmpty
  | c :: cs, sub => sub.isPrefixOf (c :: cs) || Contains cs sub

/-- The text `nil pointer` looked for in group `Err`. -/
def nilPointerText : Str := "nil pointer".toList

/-- The fields `As` writes on a match. -/
def fillTarget (e : ErrRenderError) (m : Submatch) : ErrTemplateExecError :=
  { Err := e.err, Template := m.Template, Executing := m.Executing, At := m.At,
    ErrText := m.Err, vars := e.vars }

/-- The method `ErrRenderError.As`: the boolean it returns and the target after the call. -/
def ErrRenderError.As (e : ErrRenderError) : Target → Bool × Target
  | .exec t =>
    match FindStringSubmatch e.err with
    | none => (false, .exec t)
    | some m => (true, .exec (fillTarget e m))
  | .nilPointer t =>
    match FindStringSubmatch e.err with
    | none => (false, .nilPointer t)
    | some m =>
      if !Contains m.Err nilPointerText then (false, .nilPointer t)
      else (true, .nilPointer ⟨fillTarget e m⟩)
  | .other => (false, .other)

/-! ## Formatting -/

/-- The function `strconv.IsPrint`. Runes up to U+00FF are decided by the comparisons
the function starts with; the Unicode tables it consults for the runes above are the
parameter `isPrintTable`. -/
def IsPrint (isPrintTable : Char → Bool) (r : Char) : Bool :=
  if r.toNat ≤ 0xFF then
    if 0x20 ≤ r.toNat ∧ r.toNat ≤ 0x7E then true
    else if 0xA1 ≤ r.toNat ∧ r.toNat ≤ 0xFF then r.toNat != 0xAD
    else false
  else isPrintTable r

/-- The digit `lowerhex[n]`. -/
def lowerhex (n : Nat) : Char :=
  "0123456789abcdef".toList.getD n '0'

/-- The hexadecimal digits of `r`, `n` of them, most significant first. -/
def hexDigits : Nat → Nat → Str
  | 0, _ => []
  | n + 1, r => lowerhex (r / 16 ^ n % 16) :: hexDigits n r

/-- The text `strconv.Quote` writes for one rune (`appendEscapedRune` with the double
quote as quote character). -/
def escapedRune (isPrintTable : Char → Bool) (r : Char) : Str :=
  if r = dquote ∨ r = backslash then [backslash, r]
  else if IsPrint isPrintTable r then [r]
  else if r.toNat = 7 then [backslash, 'a']
  else if r.toNat = 8 then [backslash, 'b']
  else if r.toNat = 12 then [backslash, 'f']
  else if r.toNat = 10 then [backslash, 'n']
  else if r.toNat = 13 then [backslash, 'r']
  else if r.toNat = 9 then [backslash, 't']
  else if r.toNat = 11 then [backslash, 'v']
  else if r.toNat < 0x20 ∨ r.toNat = 0x7f then backslash :: 'x' :: hexDigits 2 r.toNat
  else if r.toNat < 0x10000 then backslash :: 'u' :: hexDigits 4 r.toNat
  else backslash :: 'U' :: hexDigits 8 r.toNat

/-- The verb `%q` on a string, which is `strconv.Quote`: the text between double
quotes, every rune escaped as Go syntax asks. -/
def Quote (isPrintTable : Char → Bool) (s : Str) : Str :=
  dquote :: (s.flatMap (escapedRune isPrintTable) ++ [dquote])

/-- The function `strings.TrimSuffix`. -/
def TrimSuffix (s suffix : Str) : Str :=
  if suffix.isSuffixOf s then s.take (s.length - suffix.length) else s

/-- The function `strings.Join`. -/
def Join (elems : List Str) (sep : Str) : Str :=
  sep.intercalate elems

/-! ## The edit distance of `golang-levenshtein` -/

/-- The struct `levenshtein.Options`. -/
structure Options where
  /-- Cost of an insertion. -/
  InsCost : Nat
  /-- Cost of a deletion. -/
  DelCost : Nat
  /-- Cost of a substitution. -/
  SubCost : Nat
  /-- Whether two runes match. -/
  Matches : Char → Char → Bool

/-- The value `levenshtein.DefaultOptions` of `github.com/texttheater/golang-levenshtein`,
`Options{InsCost: 1, DelCost: 1, SubCost: 2, Matches: IdenticalRunes}`: a substitution
costs as much as an insertion and a deletion, and runes match when they are identical. -/
def DefaultOptions : Options :=
  { InsCost := 1, DelCost := 1, SubCost := 2, Matches := fun a b => a == b }

/-- The cells `cur[j]`, `j ≥ 1`, of one row of the edit matrix: `a` is the source rune
of the row, the first list the target runes still to come, the second list the
previous row from `prev[j-1]` on, and `left` is `cur[j-1]`. -/
def fillRow (op : Options) (a : Char) : Str → List Nat → Nat → List Nat
  | b :: bs, diag :: up :: prev, left =>
    let delCost := up + op.DelCost
    let matchSubCost := if op.Matches a b then diag else diag + op.SubCost
    let insCost := left + op.InsCost
    let cell := min delCost (min matchSubCost insCost)
    cell :: fillRow op a bs (up :: prev) cell
  | _, _, _ => []

/-- The rows of the edit matrix below row `i - 1`, which is `prev`, one for each source
rune; the result is the last row. -/
def fillRows (op : Options) (target : Str) : Str → Nat → List Nat → List Nat
  | [], _, prev => prev
  | a :: source, i, prev =>
    fillRows op target source (i + 1) (i * op.DelCost :: fillRow op a target prev (i * op.DelCost))

/-- The function `levenshtein.DistanceForStrings`: the edit matrix is filled row by
row from the row `j * InsCost` of the empty source, every row starting with
`i * DelCost`, and the distance is the last cell of the last row. (Under
`DefaultOptions` the first row and the first column are the indices themselves.) -/
def DistanceForStrings (source target : Str) (op : Options) : Nat :=
  (fillRows op target source 1 ((List.range (target.length + 1)).map (fun j => j * op.InsCost))).getD
    target.length 0

/-! ## The messages -/

/-- The method `ErrTemplateExecError.Error`. -/
def ErrTemplateExecError.Error (isPrintTable : Char → Bool) (tnp : ErrTemplateExecError) : Str :=
  let nilVarName := TrimSuffix tnp.At ('.' :: tnp.Executing)
  "error rendering ".toList ++ Quote isPrintTable nilVarName ++ " in ".toList
    ++ Quote isPrintTable tnp.At ++ " (".toList ++ tnp.Template ++ "): ".toList ++ tnp.ErrText

/-- The method `ErrTemplateExecError.validValues`. -/
def ErrTemplateExecError.validValues (isPrintTable : Char → Bool) (tnp : ErrTemplateExecError) :
    Str :=
  let keys := (getAllKeys tnp.vars).map (fun k => "     ".toList ++ Quote isPrintTable k)
  "\n\n Valid values are:\n".toList ++ Join keys "\n".toList

/-- One turn of the loop of `didYouMean` on the pair `(dist, out)`. -/
def didYouMeanStep (varName : Str) (best : Nat × Str) (key : Str) : Nat × Str :=
  let keyDist := DistanceForStrings varName key DefaultOptions
  if keyDist < best.1 then (keyDist, key) else best

/-- The loop of `didYouMean` over the keys, from `dist = 5` and `out = ""`. -/
def didYouMeanLoop (varName : Str) (keys : List Str) : Nat × Str :=
  keys.foldl (didYouMeanStep varName) (5, [])

/-- The method `ErrTemplateExecError.didYouMean`. -/
def ErrTemplateExecError.didYouMean (isPrintTable : Char → Bool) (tnp : ErrTemplateExecError)
    (varName : Str) : Str :=
  let out := (didYouMeanLoop varName (getAllKeys tnp.vars)).2
  if out ≠ [] then "\n\n Did you mean ".toList ++ Quote isPrintTable out ++ "?".toList else []

/-- The method `ErrTemplateNilPointerError.Error`. -/
def ErrTemplateNilPointerError.Error (isPrintTable : Char → Bool)
    (tnp : ErrTemplateNilPointerError) : Str :=
  let nilVarName := TrimSuffix tnp.At ('.' :: tnp.Executing)
  "nil pointer evaluating ".toList ++ Quote isPrintTable nilVarName ++ " in ".toList
    ++ Quote isPrintTable tnp.At ++ ".(".toList ++ tnp.Template ++ ").".toList
    ++ tnp.toErrTemplateExecError.didYouMean isPrintTable tnp.At
    ++ tnp.toErrTemplateExecError.validValues isPrintTable

/-! ## Bindings in the heap and `NewErrRenderError` -/

/-- A value stored in a map of the heap: the address of a nested
`map[string]interface{}` or anything else. -/
inductive HeapValue where
  | scalar : HeapValue
  | ref : Nat → HeapValue
deriving DecidableEq

/-- A map of the heap: its entries in enumeration order. -/
abbrev MapObject := List (Str × HeapValue)

/-- The maps of the heap, a map at the address that is its position. -/
abbrev Heap := List MapObject

/-- The entries of a map as a binding, `read` giving the bindings of the nested maps. -/
def readEntries (read : Nat → Option Binding) : MapObject → Option Binding
  | [] => some .nil
  | (k, .scalar) :: es => (readEntries read es).map (fun r => .cons k .scalar r)
  | (k, .ref a) :: es =>
    (read a).bind fun x => (readEntries read es).map (fun r => .cons k (.map x) r)

/-- The binding that the map at an address holds, nested maps followed; `none` when
the maps nest deeper than `fuel` (a cycle, at the latest) or an address is not in use. -/
def readBinding (h : Heap) : Nat → Nat → Option Binding
  | 0, _ => none
  | fuel + 1, a => h[a]?.bind (readEntries (readBinding h fuel))

/-- Modelled from the spec: the deep copy of `copystructure.Copy`, which is not part of
the sources, on the entries of a map. Nested maps are copied by `copy`, other values
are kept. -/
def copyEntries (copy : Nat → Heap → Option (Heap × Nat)) :
    MapObject → Heap → Option (Heap × MapObject)
  | [], h => some (h, [])
  | (k, .scalar) :: es, h => (copyEntries copy es h).map (fun r => (r.1, (k, .scalar) :: r.2))
  | (k, .ref a) :: es, h =>
    (copy a h).bind fun r1 =>
      (copyEntries copy es r1.1).map (fun r2 => (r2.1, (k, .ref r1.2) :: r2.2))

/-- Modelled from the spec: the deep copy of `copystructure.Copy`, which is not part of
the sources ("the binding is deep-copied", "fully independent of the caller's live
structure"). The map at the address is copied into a new map of the heap, the maps
nested in it first; the result is the heap after the copy and the address of the new
map. -/
def copyMap : Nat → Nat → Heap → Option (Heap × Nat)
  | 0, _, _ => none
  | fuel + 1, a, h =>
    h[a]?.bind fun obj =>
      (copyEntries (copyMap fuel) obj h).map (fun r => (r.1 ++ [r.2], r.1.length))

/-- Modelled from the spec: the function `copystructure.Copy`, which is not part of the
sources, on the map at the address `vars`. On a binding that the heap holds within the
fuel it returns the heap after the deep copy and the address of the copy. -/
def Copy (fuel : Nat) (h : Heap) (vars : Nat) : Option (Heap × Nat) :=
  copyMap fuel vars h

/-- The struct `ErrRenderError` in the heap: `vars` is the address of its map. -/
structure ErrRenderErrorRef where
  /-- Text of the wrapped error. -/
  err : Str
  /-- Address of the snapshot of the binding. -/
  vars : Nat

/-- The function `NewErrRenderError`. The parameter `copyVars` is `copystructure.Copy`: it
gives the heap after the copy and the address of the copy, or `none` when it returns
`nil` and an error. The error of the copy is dropped, and the type assertion
`newVars.(map[string]interface{})` panics on the `nil` of a failed copy: the result
`none` is that panic. -/
def NewErrRenderError (copyVars : Heap → Nat → Option (Heap × Nat)) (h : Heap) (err : Str)
    (vars : Nat) : Option (Heap × ErrRenderErrorRef) :=
  match copyVars h vars with
  | some (h1, newVars) => some (h1, { err := err, vars := newVars })
  | none => none

/-- The render error that the code reads from the heap: the text of the error and the
binding that the map at `vars` holds. -/
def ErrRenderErrorRef.load (e : ErrRenderErrorRef) (h : Heap) (fuel : Nat) :
    Option ErrRenderError :=
  (readBinding h fuel e.vars).map (fun b => { err := e.err, vars := b })

/-! ## Definitions used to state the claims -/

/-- A field of an error text without double quote, without `>` and without line feed. -/
def PlainField (s : Str) : Prop :=
  dquote ∉ s ∧ '>' ∉ s ∧ newline ∉ s

instance (s : Str) : Decidable (PlainField s) := by
  unfold PlainField; infer_instance

mutual
/-- Following the claim's words: the keys of a binding at every nesting depth, each as
the list of key names from the root, an entry before the keys nested under it. -/
def keyPaths : Binding → List (List Str)
  | .nil => []
  | .cons k v rest => [k] :: ((valuePaths v).map (fun p => k :: p) ++ keyPaths rest)
/-- The keys nested in a value. -/
def valuePaths : Value → List (List Str)
  | .scalar => []
  | .map x => keyPaths x
end

mutual
/-- Following the claim's words: the total number of keys in a binding and all the
maps nested in it. -/
def countKeys : Binding → Nat
  | .nil => 0
  | .cons _ v rest => 1 + countKeysValue v + countKeys rest
/-- The number of keys nested in a value. -/
def countKeysValue : Value → Nat
  | .scalar => 0
  | .map x => countKeys x
end

/-- The text `.` followed by the key names joined by `.`. -/
def dottedPath (p : List Str) : Str :=
  '.' :: Join p ['.']

/-- The binding of the witness of C5: its flattened keys are `.foo`, `.map.int`,
`.map.bool` and `.map.string`. -/
def fourKeys : Binding :=
  .cons "foo".toList .scalar (.cons "map.int".toList .scalar
    (.cons "map.bool".toList .scalar (.cons "map.string".toList .scalar .nil)))

/-- A text of printable ASCII runes without double quote and without backslash. -/
def PlainASCII (s : Str) : Prop :=
  ∀ c ∈ s, 0x20 ≤ c.toNat ∧ c.toNat ≤ 0x7E ∧ c ≠ dquote ∧ c ≠ backslash

instance (s : Str) : Decidable (PlainASCII s) := by
  unfold PlainASCII; infer_instance

/-- The binding `{"map": {"string": ...}}`, whose flattened keys are `.map` and
`.map.string`. -/
def mapString : Binding :=
  .cons "map".toList (.map (.cons "string".toList .scalar .nil)) .nil

/-- The binding with the one key `a"b`. -/
def quoteKey : Binding :=
  .cons ['a', dquote, 'b'] .scalar .nil

/-- The costs of `op` as a cost structure of the edit distance `levenshtein`. -/
def Options.cost (op : Options) : Levenshtein.Cost Char Char ℕ where
  delete _ := op.DelCost
  insert _ := op.InsCost
  substitute a b := if op.Matches a b then 0 else op.SubCost

/-- Following the amended claim's words: insertion and deletion cost 1, a substitution
costs 2 and equal runes cost nothing. -/
def substitutionTwoCost : Levenshtein.Cost Char Char ℕ where
  delete _ := 1
  insert _ := 1
  substitute a b := if a = b then 0 else 2

/-- The row of the edit matrix that belongs to the part `s` of the source: the
distances from `s` to `done`, to `done` with one more rune of `bs`, and so on up to
`done ++ bs`. -/
def matrixRow (C : Levenshtein.Cost Char Char ℕ) (s : Str) : Str → Str → List Nat
  | done, [] => [levenshtein C s done]
  | done, b :: bs => levenshtein C s done :: matrixRow C s (done ++ [b]) bs

/-- The two kinds of target a caller narrows to. -/
inductive Kind where
  | exec : Kind
  | nilPointer : Kind

/-- What a caller holds while narrowing: the render error and one target of each
kind. -/
structure Narrowing where
  /-- The render error. -/
  e : ErrRenderError
  /-- The target of kind `*ErrTemplateExecError`. -/
  exec : ErrTemplateExecError
  /-- The target of kind `*ErrTemplateNilPointerError`. -/
  nilPointer : ErrTemplateNilPointerError

/-- One call of `As` on the target of the given kind: the boolean and what the caller
holds after the call. The receiver of `As` is passed by value and `As` assigns to the
target only. -/
def Narrowing.call (s : Narrowing) : Kind → Bool × Narrowing
  | .exec =>
    match s.e.As (.exec s.exec) with
    | (ok, .exec t) => (ok, { s with exec := t })
    | (ok, _) => (ok, s)
  | .nilPointer =>
    match s.e.As (.nilPointer s.nilPointer) with
    | (ok, .nilPointer t) => (ok, { s with nilPointer := t })
    | (ok, _) => (ok, s)

/-- A sequence of calls of `As`, one after the other. -/
def Narrowing.run (s : Narrowing) : List Kind → Narrowing
  | [] => s
  | k :: ks => Narrowing.run (s.call k).2 ks

/-- Two enumerations of the same binding: the same entries in another order, the maps
nested in it enumerated in another order as well. -/
inductive Binding.Reorder : Binding → Binding → Prop
  | refl (b : Binding) : Binding.Reorder b b
  | cons (k : Str) (v : Value) {b b1 : Binding} :
      Binding.Reorder b b1 → Binding.Reorder (.cons k v b) (.cons k v b1)
  | nested (k : Str) {x x1 : Binding} (b : Binding) :
      Binding.Reorder x x1 → Binding.Reorder (.cons k (.map x) b) (.cons k (.map x1) b)
  | swap (k1 : Str) (v1 : Value) (k2 : Str) (v2 : Value) (b : Binding) :
      Binding.Reorder (.cons k1 v1 (.cons k2 v2 b)) (.cons k2 v2 (.cons k1 v1 b))
  | trans {a b c : Binding} : Binding.Reorder a b → Binding.Reorder b c → Binding.Reorder a c

/-- The binding of the test:
`{"foo": "bar", "map": {"int": 1, "bool": true, "string": "a string"}}`. -/
def testBinding : Binding :=
  .cons "foo".toList .scalar
    (.cons "map".toList
      (.map (.cons "int".toList .scalar
        (.cons "bool".toList .scalar (.cons "string".toList .scalar .nil))))
      .nil)

/-- The binding of the test with the entries of the nested map in another order. -/
def testBindingReordered : Binding :=
  .cons "foo".toList .scalar
    (.cons "map".toList
      (.map (.cons "bool".toList .scalar
        (.cons "int".toList .scalar (.cons "string".toList .scalar .nil))))
      .nil)

/-- The failure text that C13 names. The engine does not report it in the test, see
`engineFailure`. -/
def claimedFailure : Str :=
  "template: test:1:8: executing \"test\" at <.bad.string>: nil pointer evaluating interface \x7b\x7d.string".toList

/-- The text of the failure that the engine reports in the test, where `parseTemplate`
executes the template `{{if eq .bad.string "" }}nope{{end}}` with the option
`missingkey=error` on the binding of the test. -/
def engineFailure : Str :=
  "template: test:1:12: executing \"test\" at <.bad.string>: map has no entry for key \"bad\"".toList

/-- A heap with the binding of the test at address 0 and its nested map at address 1. -/
def testHeap : Heap :=
  [[("foo".toList, .scalar), ("map".toList, .ref 1)],
    [("int".toList, .scalar), ("bool".toList, .scalar), ("string".toList, .scalar)]]

/-- A heap with the binding `{"foo": .., "map": {"int": ..}}` of a caller at address 0. -/
def callerHeap : Heap :=
  [[("foo".toList, .scalar), ("map".toList, .ref 1)], [("int".toList, .scalar)]]

/-- The heap `callerHeap` after `NewErrRenderError` and after the caller has then
changed its two maps: the key `foo` is removed, the key `new` added and the key `int`
replaced by `bool`. -/
def callerHeapMutated : Heap :=
  [[("map".toList, .ref 1), ("new".toList, .scalar)], [("bool".toList, .scalar)],
    [("int".toList, .scalar)], [("foo".toList, .scalar), ("map".toList, .ref 2)]]

set_option maxRecDepth 100000

/-! ## Lemmas on the pattern -/

theorem dropLit_eq_some_iff (l s r : Str) : dropLit l s = some r ↔ s = l ++ r := by
  induction l generalizing s with
  | nil => simp [dropLit, eq_comm]
  | cons a l ih =>
    cases s with
    | nil => simp [dropLit]
    | cons b s =>
      by_cases h : a = b
      · simp [dropLit, h, ih, eq_comm]
      · simp [dropLit, h, Ne.symm h]

theorem dropLit_append (l r : Str) : dropLit l (l ++ r) = some r :=
  (dropLit_eq_some_iff l (l ++ r) r).2 rfl

theorem dotStar_sound {α : Type} (k : Str → Option α) (s cap : Str) (r : α)
    (h : dotStar k s = some (cap, r)) :
    ∃ rest, s = cap ++ rest ∧ newline ∉ cap ∧ k rest = some r := by
  induction s generalizing cap with
  | nil =>
    simp only [dotStar, Option.map_eq_some', Prod.mk.injEq] at h
    obtain ⟨a, ha, rfl, rfl⟩ := h
    exact ⟨[], rfl, by simp, ha⟩
  | cons c cs ih =>
    simp only [dotStar] at h
    by_cases hc : c = newline
    · simp only [hc, if_true, Option.map_eq_some', Prod.mk.injEq] at h
      obtain ⟨a, ha, rfl, rfl⟩ := h
      exact ⟨newline :: cs, by simp [hc], by simp, ha⟩
    · simp only [hc, if_false] at h
      cases hd : dotStar k cs with
      | none =>
        simp only [hd, Option.map_eq_some', Prod.mk.injEq] at h
        obtain ⟨a, ha, rfl, rfl⟩ := h
        exact ⟨c :: cs, rfl, by simp, ha⟩
      | some p =>
        obtain ⟨cap1, r1⟩ := p
        simp only [hd, Option.some.injEq, Prod.mk.injEq] at h
        obtain ⟨rfl, rfl⟩ := h
        obtain ⟨rest, h1, h2, h3⟩ := ih cap1 hd
        refine ⟨rest, by simp [h1], ?_, h3⟩
        simp only [List.mem_cons, not_or]
        exact ⟨fun e => hc e.symm, h2⟩

theorem dotStar_eq_none_iff {α : Type} (k : Str → Option α) (s : Str) :
    dotStar k s = none ↔ ∀ cap rest, s = cap ++ rest → newline ∉ cap → k rest = none := by
  induction s with
  | nil =>
    simp only [dotStar, Option.map_eq_none']
    constructor
    · intro h cap rest e _
      obtain ⟨-, rfl⟩ := List.append_eq_nil.1 e.symm
      exact h
    · intro h
      exact h [] [] rfl (by simp)
  | cons c cs ih =>
    simp only [dotStar]
    by_cases hc : c = newline
    · simp only [hc, if_true, Option.map_eq_none']
      constructor
      · intro h cap rest e hn
        cases cap with
        | nil =>
          simp only [List.nil_append] at e
          rw [← e, ← hc]; rw [hc]; exact h
        | cons a cap =>
          simp only [List.cons_append, List.cons.injEq] at e
          exact absurd (by simp [← e.1]) hn
      · intro h
        exact h [] (newline :: cs) rfl (by simp)
    · simp only [hc, if_false]
      cases hd : dotStar k cs with
      | none =>
        simp only [Option.map_eq_none']
        constructor
        · intro h cap rest e hn
          cases cap with
          | nil =>
            simp only [List.nil_append] at e
            rw [← e]; exact h
          | cons a cap =>
            simp only [List.cons_append, List.cons.injEq] at e
            exact (ih.1 hd) cap rest e.2 (fun hm => hn (List.mem_cons_of_mem _ hm))
        · intro h
          exact h [] (c :: cs) rfl (by simp)
      | some p =>
        obtain ⟨cap1, r1⟩ := p
        obtain ⟨rest, h1, h2, h3⟩ := dotStar_sound k cs cap1 r1 hd
        constructor
        · intro h
          cases h
        · intro h
          have := h (c :: cap1) rest (by simp [h1])
            (by simp only [List.mem_cons, not_or]; exact ⟨fun e => hc e.symm, h2⟩)
          simp [h3] at this

/-- The greedy choice: when the rest of the pattern matches behind `cap` and behind no
other split of the text, `.*` captures `cap`. -/
theorem dotStar_of_unique {α : Type} (k : Str → Option α) (cap rest : Str) (r : α)
    (hcap : newline ∉ cap) (hk : k rest = some r)
    (huniq : ∀ cap1 rest1, cap ++ rest = cap1 ++ rest1 → newline ∉ cap1 →
      k rest1 ≠ none → cap1 = cap) :
    dotStar k (cap ++ rest) = some (cap, r) := by
  cases hd : dotStar k (cap ++ rest) with
  | none =>
    have := (dotStar_eq_none_iff k _).1 hd cap rest rfl hcap
    simp [hk] at this
  | some p =>
    obtain ⟨cap1, r1⟩ := p
    obtain ⟨rest1, h1, h2, h3⟩ := dotStar_sound k _ cap1 r1 hd
    have hc := huniq cap1 rest1 h1 h2 (by simp [h3])
    subst hc
    have := List.append_cancel_left h1
    subst this
    simp [hk] at h3
    simp [h3]

theorem matchErr_eq_some_iff (s m : Str) :
    matchErr s = some m ↔ ∃ s1, s = litErr ++ s1 ∧ m = s1.takeWhile (fun c => c != newline) := by
  simp only [matchErr, Option.map_eq_some', dropLit_eq_some_iff]
  constructor
  · rintro ⟨a, h1, h2⟩; exact ⟨a, h1, h2.symm⟩
  · rintro ⟨a, h1, h2⟩; exact ⟨a, h1, h2.symm⟩

theorem matchErr_ne_none_iff (s : Str) : matchErr s ≠ none ↔ ∃ s1, s = litErr ++ s1 := by
  rw [Option.ne_none_iff_exists']
  constructor
  · rintro ⟨m, hm⟩
    obtain ⟨s1, h1, -⟩ := (matchErr_eq_some_iff s m).1 hm
    exact ⟨s1, h1⟩
  · rintro ⟨s1, h1⟩
    exact ⟨_, (matchErr_eq_some_iff s _).2 ⟨s1, h1, rfl⟩⟩

theorem matchAt_ne_none_iff (s : Str) :
    matchAt s ≠ none ↔ ∃ P s1, newline ∉ P ∧ s = litAt ++ P ++ litErr ++ s1 := by
  constructor
  · intro h
    obtain ⟨⟨P, m⟩, hm⟩ := Option.ne_none_iff_exists'.1 h
    simp only [matchAt, Option.bind_eq_some, dropLit_eq_some_iff] at hm
    obtain ⟨a, rfl, ha⟩ := hm
    obtain ⟨rest, rfl, hP, hr⟩ := dotStar_sound _ _ _ _ ha
    obtain ⟨s1, rfl, -⟩ := (matchErr_eq_some_iff _ _).1 hr
    exact ⟨P, s1, hP, by simp⟩
  · rintro ⟨P, s1, hP, rfl⟩ h
    simp only [matchAt, List.append_assoc, dropLit_append, Option.some_bind] at h
    have := (dotStar_eq_none_iff _ _).1 h P (litErr ++ s1) rfl hP
    exact (matchErr_ne_none_iff _).2 ⟨s1, rfl⟩ this

theorem matchExecuting_ne_none_iff (s : Str) :
    matchExecuting s ≠ none ↔
      ∃ E P s1, newline ∉ E ∧ newline ∉ P ∧ s = litExecuting ++ E ++ litAt ++ P ++ litErr ++ s1 := by
  constructor
  · intro h
    obtain ⟨⟨E, m⟩, hm⟩ := Option.ne_none_iff_exists'.1 h
    simp only [matchExecuting, Option.bind_eq_some, dropLit_eq_some_iff] at hm
    obtain ⟨a, rfl, ha⟩ := hm
    obtain ⟨rest, rfl, hE, hr⟩ := dotStar_sound _ _ _ _ ha
    obtain ⟨P, s1, hP, rfl⟩ := (matchAt_ne_none_iff rest).1 (by simp [hr])
    exact ⟨E, P, s1, hE, hP, by simp⟩
  · rintro ⟨E, P, s1, hE, hP, rfl⟩ h
    simp only [matchExecuting, List.append_assoc, dropLit_append, Option.some_bind] at h
    have := (dotStar_eq_none_iff _ _).1 h E (litAt ++ (P ++ (litErr ++ s1))) rfl hE
    exact (matchAt_ne_none_iff _).2 ⟨P, s1, hP, by simp⟩ this

theorem matchHere_ne_none_iff (s : Str) :
    matchHere s ≠ none ↔
      ∃ T E P s1, newline ∉ T ∧ newline ∉ E ∧ newline ∉ P ∧
        s = litTemplate ++ T ++ litExecuting ++ E ++ litAt ++ P ++ litErr ++ s1 := by
  constructor
  · intro h
    obtain ⟨m, hm⟩ := Option.ne_none_iff_exists'.1 h
    simp only [matchHere, Option.bind_eq_some, dropLit_eq_some_iff, Option.map_eq_some'] at hm
    obtain ⟨a, rfl, ⟨T, r⟩, ha, -⟩ := hm
    obtain ⟨rest, rfl, hT, hr⟩ := dotStar_sound _ _ _ _ ha
    obtain ⟨E, P, s1, hE, hP, rfl⟩ := (matchExecuting_ne_none_iff rest).1 (by simp [hr])
    exact ⟨T, E, P, s1, hT, hE, hP, by simp⟩
  · rintro ⟨T, E, P, s1, hT, hE, hP, rfl⟩ h
    simp only [matchHere, List.append_assoc, dropLit_append, Option.some_bind,
      Option.map_eq_none'] at h
    have := (dotStar_eq_none_iff _ _).1 h T
      (litExecuting ++ (E ++ (litAt ++ (P ++ (litErr ++ s1))))) rfl hT
    exact (matchExecuting_ne_none_iff _).2 ⟨E, P, s1, hE, hP, by simp⟩ this

theorem FindStringSubmatch_eq_none_iff (s : Str) :
    FindStringSubmatch s = none ↔ ∀ pre rest, s = pre ++ rest → matchHere rest = none := by
  induction s with
  | nil =>
    simp only [FindStringSubmatch]
    constructor
    · intro h pre rest e
      obtain ⟨-, rfl⟩ := List.append_eq_nil.1 e.symm
      exact h
    · intro h; exact h [] [] rfl
  | cons c cs ih =>
    simp only [FindStringSubmatch]
    cases hm : matchHere (c :: cs) with
    | some m =>
      constructor
      · intro h; cases h
      · intro h
        have := h [] (c :: cs) rfl
        simp [hm] at this
    | none =>
      simp only [ih]
      constructor
      · intro h pre rest e
        cases pre with
        | nil => simp only [List.nil_append] at e; rw [← e]; exact hm
        | cons a pre =>
          simp only [List.cons_append, List.cons.injEq] at e
          exact h pre rest e.2
      · intro h pre rest e
        exact h (c :: pre) rest (by simp [e])

/-- The only occurrence of a rune splits a text in one way only. -/
theorem only_occurrence_unique (d : Char) (x y x1 y1 : Str) (hx : d ∉ x) (hy : d ∉ y)
    (h : x ++ d :: y = x1 ++ d :: y1) : x = x1 ∧ y = y1 := by
  induction x generalizing x1 with
  | nil =>
    cases x1 with
    | nil => simpa using h
    | cons b x1 =>
      simp only [List.nil_append, List.cons_append, List.cons.injEq] at h
      exact absurd (by simp [h.2]) hy
  | cons a x ih =>
    cases x1 with
    | nil =>
      simp only [List.nil_append, List.cons_append, List.cons.injEq] at h
      exact absurd (by simp [h.1]) hx
    | cons b x1 =>
      simp only [List.cons_append, List.cons.injEq] at h
      have := ih x1 (fun hm => hx (List.mem_cons_of_mem _ hm)) h.2
      exact ⟨by rw [h.1, this.1], this.2⟩

/-- The first of the only two occurrences of a rune is found in one way only. -/
theorem two_occurrences_unique (d : Char) (x y z x1 y1 z1 : Str) (hx : d ∉ x) (hy : d ∉ y)
    (hz : d ∉ z) (h : x ++ d :: (y ++ d :: z) = x1 ++ d :: (y1 ++ d :: z1)) : x = x1 := by
  induction x generalizing x1 with
  | nil =>
    cases x1 with
    | nil => rfl
    | cons b x1 =>
      simp only [List.nil_append, List.cons_append, List.cons.injEq] at h
      have := (only_occurrence_unique d y z x1 (y1 ++ d :: z1) hy hz h.2).2
      exact absurd (by simp [this]) hz
  | cons a x ih =>
    cases x1 with
    | nil =>
      simp only [List.nil_append, List.cons_append, List.cons.injEq] at h
      exact absurd (by simp [h.1]) hx
    | cons b x1 =>
      simp only [List.cons_append, List.cons.injEq] at h
      rw [h.1, ih x1 (fun hm => hx (List.mem_cons_of_mem _ hm)) h.2]

theorem takeWhile_not_newline (m : Str) (h : newline ∉ m) :
    m.takeWhile (fun c => c != newline) = m := by
  rw [List.takeWhile_eq_self_iff]
  intro c hc
  simp only [bne_iff_ne, ne_eq]
  rintro rfl
  exact h hc

theorem matchErr_plain (M : Str) (hM : newline ∉ M) : matchErr (litErr ++ M) = some M :=
  (matchErr_eq_some_iff _ _).2 ⟨M, rfl, (takeWhile_not_newline M hM).symm⟩

theorem matchAt_plain (P M : Str) (hP : PlainField P) (hM : PlainField M) :
    matchAt (litAt ++ P ++ litErr ++ M) = some (P, M) := by
  simp only [matchAt, List.append_assoc, dropLit_append, Option.some_bind]
  refine dotStar_of_unique matchErr P (litErr ++ M) M hP.2.2 (matchErr_plain M hM.2.2) ?_
  intro cap1 rest1 h _ hk
  obtain ⟨s1, rfl⟩ := (matchErr_ne_none_iff rest1).1 hk
  have hy : '>' ∉ (": ".toList ++ M) := by
    simp only [List.mem_append, not_or]
    exact ⟨by decide, hM.2.1⟩
  exact ((only_occurrence_unique '>' P (": ".toList ++ M) cap1 (": ".toList ++ s1) hP.2.1 hy
    (by simpa [litErr] using h)).1).symm

theorem matchExecuting_plain (E P M : Str) (hE : PlainField E) (hP : PlainField P)
    (hM : PlainField M) :
    matchExecuting (litExecuting ++ E ++ litAt ++ P ++ litErr ++ M) = some (E, P, M) := by
  simp only [matchExecuting, List.append_assoc, dropLit_append, Option.some_bind]
  refine dotStar_of_unique matchAt E (litAt ++ (P ++ (litErr ++ M))) (P, M) hE.2.2
    (by simpa using matchAt_plain P M hP hM) ?_
  intro cap1 rest1 h _ hk
  obtain ⟨P1, s1, -, rfl⟩ := (matchAt_ne_none_iff rest1).1 hk
  have hy : dquote ∉ (" at <".toList ++ (P ++ (litErr ++ M))) := by
    simp only [List.mem_append, not_or]
    exact ⟨by decide, hP.1, by decide, hM.1⟩
  exact ((only_occurrence_unique dquote E _ cap1 (" at <".toList ++ (P1 ++ (litErr ++ s1))) hE.1 hy
    (by simpa [litAt, dquote] using h)).1).symm

theorem matchHere_plain (T E P M : Str) (hT : PlainField T) (hE : PlainField E)
    (hP : PlainField P) (hM : PlainField M) :
    matchHere (litTemplate ++ T ++ litExecuting ++ E ++ litAt ++ P ++ litErr ++ M)
      = some ⟨T, E, P, M⟩ := by
  simp only [matchHere, List.append_assoc, dropLit_append, Option.some_bind]
  have key : dotStar matchExecuting (T ++ (litExecuting ++ (E ++ (litAt ++ (P ++ (litErr ++ M))))))
      = some (T, E, P, M) := by
    refine dotStar_of_unique matchExecuting T _ (E, P, M) hT.2.2
      (by simpa using matchExecuting_plain E P M hE hP hM) ?_
    intro cap1 rest1 h _ hk
    obtain ⟨E1, P1, s1, -, -, rfl⟩ := (matchExecuting_ne_none_iff rest1).1 hk
    have hx : dquote ∉ (T ++ ": executing ".toList) := by
      simp only [List.mem_append, not_or]
      exact ⟨hT.1, by decide⟩
    have hz : dquote ∉ (" at <".toList ++ (P ++ (litErr ++ M))) := by
      simp only [List.mem_append, not_or]
      exact ⟨by decide, hP.1, by decide, hM.1⟩
    have := two_occurrences_unique dquote (T ++ ": executing ".toList) E _
      (cap1 ++ ": executing ".toList) E1 (" at <".toList ++ (P1 ++ (litErr ++ s1))) hx hE.1 hz
      (by simpa [litExecuting, litAt, dquote] using h)
    exact (List.append_cancel_right this).symm
  rw [key]; rfl

theorem FindStringSubmatch_plain (T E P M : Str) (hT : PlainField T) (hE : PlainField E)
    (hP : PlainField P) (hM : PlainField M) :
    FindStringSubmatch (litTemplate ++ T ++ litExecuting ++ E ++ litAt ++ P ++ litErr ++ M)
      = some ⟨T, E, P, M⟩ := by
  have h := matchHere_plain T E P M hT hE hP hM
  have hcons : litTemplate ++ T ++ litExecuting ++ E ++ litAt ++ P ++ litErr ++ M
      = 't' :: ("emplate: ".toList ++ T ++ litExecuting ++ E ++ litAt ++ P ++ litErr ++ M) := by
    simp [litTemplate]
  rw [hcons] at h ⊢
  simp only [FindStringSubmatch, h]

theorem Contains_iff (s sub : Str) : Contains s sub = true ↔ sub <:+: s := by
  induction s with
  | nil =>
    cases sub <;> simp [Contains]
  | cons c cs ih =>
    simp only [Contains, Bool.or_eq_true, ih, List.infix_cons_iff, List.isPrefixOf_iff_prefix]

theorem As_exec_fst (e : ErrRenderError) (t : ErrTemplateExecError) :
    (e.As (.exec t)).1 = true ↔ FindStringSubmatch e.err ≠ none := by
  cases h : FindStringSubmatch e.err <;> simp [ErrRenderError.As, h]

theorem As_nilPointer_fst (e : ErrRenderError) (tn : ErrTemplateNilPointerError) :
    (e.As (.nilPointer tn)).1 = true ↔
      ∃ m, FindStringSubmatch e.err = some m ∧ Contains m.Err nilPointerText = true := by
  cases h : FindStringSubmatch e.err with
  | none => simp [ErrRenderError.As, h]
  | some m =>
    by_cases hc : Contains m.Err nilPointerText = true
    · simp [ErrRenderError.As, h, hc]
    · simp [ErrRenderError.As, h, hc]

theorem FindStringSubmatch_ne_none_iff (s : Str) :
    FindStringSubmatch s ≠ none ↔
      ∃ pre T E P post, newline ∉ T ∧ newline ∉ E ∧ newline ∉ P ∧
        s = pre ++ litTemplate ++ T ++ litExecuting ++ E ++ litAt ++ P ++ litErr ++ post := by
  rw [Ne, FindStringSubmatch_eq_none_iff]
  constructor
  · intro h
    simp only [not_forall] at h
    obtain ⟨pre, rest, hs, hm⟩ := h
    obtain ⟨T, E, P, post, hT, hE, hP, rfl⟩ := (matchHere_ne_none_iff rest).1 hm
    exact ⟨pre, T, E, P, post, hT, hE, hP, by simp [hs]⟩
  · rintro ⟨pre, T, E, P, post, hT, hE, hP, rfl⟩ h
    exact (matchHere_ne_none_iff _).2 ⟨T, E, P, post, hT, hE, hP, rfl⟩
      (h pre _ (by simp))

/-! ## The flattener -/

theorem Join_cons_cons (a b : Str) (p : List Str) (sep : Str) :
    Join (a :: b :: p) sep = a ++ sep ++ Join (b :: p) sep := by
  simp [Join, List.intercalate, List.intersperse]

theorem keyPaths_ne_nil : ∀ (b : Binding) (p : List Str), p ∈ keyPaths b → p ≠ []
  | .nil, p, h => by simp [keyPaths] at h
  | .cons k v rest, p, h => by
    simp only [keyPaths, List.mem_cons, List.mem_append, List.mem_map] at h
    rcases h with rfl | ⟨q, -, rfl⟩ | h
    · simp
    · simp
    · exact keyPaths_ne_nil rest p h

theorem valuePaths_ne_nil (v : Value) (p : List Str) (h : p ∈ valuePaths v) : p ≠ [] := by
  cases v with
  | scalar => simp [valuePaths] at h
  | map x => exact keyPaths_ne_nil x p (by simpa [valuePaths] using h)

mutual
theorem getKeys_eq : ∀ (b : Binding) (path : Str) (collector : List Str),
    getKeys b path collector
      = collector ++ (keyPaths b).map (fun p => path ++ dottedPath p)
  | .nil, path, collector => by simp [getKeys, keyPaths]
  | .cons k v rest, path, collector => by
    rw [getKeys, getKeys_eq rest, getKeysValue_eq v]
    simp only [keyPaths, List.map_cons, List.map_append, List.map_map, List.append_assoc,
      List.singleton_append, List.cons_append, List.nil_append]
    congr 1
    congr 1
    · simp [dottedPath, Join, List.intercalate]
    · congr 1
      apply List.map_congr_left
      intro p hp
      cases p with
      | nil => exact absurd rfl (valuePaths_ne_nil v [] hp)
      | cons a p =>
        simp [dottedPath, Join_cons_cons]
theorem getKeysValue_eq : ∀ (v : Value) (path : Str) (collector : List Str),
    getKeysValue v path collector
      = collector ++ (valuePaths v).map (fun p => path ++ dottedPath p)
  | .scalar, path, collector => by simp [getKeysValue, valuePaths]
  | .map x, path, collector => by
    rw [getKeysValue, getKeys_eq x]
    simp [valuePaths]
end

mutual
theorem keyPaths_length : ∀ b : Binding, (keyPaths b).length = countKeys b
  | .nil => by simp [keyPaths, countKeys]
  | .cons k v rest => by
    simp only [keyPaths, countKeys, List.length_cons, List.length_append, List.length_map]
    rw [keyPaths_length rest, valuePaths_length v]
    omega
theorem valuePaths_length : ∀ v : Value, (valuePaths v).length = countKeysValue v
  | .scalar => by simp [valuePaths, countKeysValue]
  | .map x => by
    simp only [valuePaths, countKeysValue]
    exact keyPaths_length x
end

theorem getAllKeys_eq (inMap : Binding) : getAllKeys inMap = (keyPaths inMap).map dottedPath := by
  simp [getAllKeys, getKeys_eq]

theorem getAllKeys_mem_ne_nil (inMap : Binding) (key : Str) (h : key ∈ getAllKeys inMap) :
    key ≠ [] := by
  rw [getAllKeys_eq, List.mem_map] at h
  obtain ⟨p, -, rfl⟩ := h
  simp [dottedPath]

/-! ## The loop of `didYouMean` -/

/-- The result of the loop of `didYouMean` from any start `(dist, out)`: the start is
kept when no key is nearer than `dist`; otherwise the loop ends on the first key of
least distance. -/
theorem didYouMean_foldl (varName : Str) (keys : List Str) (best : Nat × Str) :
    (keys.foldl (didYouMeanStep varName) best = best ∧
        ∀ k ∈ keys, best.1 ≤ DistanceForStrings varName k DefaultOptions) ∨
      ∃ pre key post, keys = pre ++ key :: post ∧
        keys.foldl (didYouMeanStep varName) best
          = (DistanceForStrings varName key DefaultOptions, key) ∧
        DistanceForStrings varName key DefaultOptions < best.1 ∧
        (∀ k ∈ pre, DistanceForStrings varName key DefaultOptions
          < DistanceForStrings varName k DefaultOptions) ∧
        ∀ k ∈ post, DistanceForStrings varName key DefaultOptions
          ≤ DistanceForStrings varName k DefaultOptions := by
  induction keys generalizing best with
  | nil => left; simp
  | cons k ks ih =>
    simp only [List.foldl_cons]
    by_cases hk : DistanceForStrings varName k DefaultOptions < best.1
    · have hstep : didYouMeanStep varName best k
          = (DistanceForStrings varName k DefaultOptions, k) := by
        simp [didYouMeanStep, hk]
      rw [hstep]
      right
      rcases ih (DistanceForStrings varName k DefaultOptions, k) with ⟨h1, h2⟩ | h
      · exact ⟨[], k, ks, rfl, h1, hk, by simp, h2⟩
      · obtain ⟨pre, key, post, h1, h2, h3, h4, h5⟩ := h
        refine ⟨k :: pre, key, post, by simp [h1], h2, lt_trans h3 hk, ?_, h5⟩
        intro k1 hk1
        rcases List.mem_cons.1 hk1 with rfl | hk1
        · exact h3
        · exact h4 k1 hk1
    · have hstep : didYouMeanStep varName best k = best := by
        simp [didYouMeanStep, hk]
      rw [hstep]
      rcases ih best with ⟨h1, h2⟩ | h
      · left
        refine ⟨h1, ?_⟩
        intro k1 hk1
        rcases List.mem_cons.1 hk1 with rfl | hk1
        · exact not_lt.1 hk
        · exact h2 k1 hk1
      · right
        obtain ⟨pre, key, post, h1, h2, h3, h4, h5⟩ := h
        refine ⟨k :: pre, key, post, by simp [h1], h2, h3, ?_, h5⟩
        intro k1 hk1
        rcases List.mem_cons.1 hk1 with rfl | hk1
        · exact lt_of_lt_of_le h3 (not_lt.1 hk)
        · exact h4 k1 hk1

theorem didYouMean_eq_nil_or (isPrintTable : Char → Bool) (tnp : ErrTemplateExecError)
    (varName : Str) :
    (tnp.didYouMean isPrintTable varName = [] ∧
        ∀ k ∈ getAllKeys tnp.vars, 5 ≤ DistanceForStrings varName k DefaultOptions) ∨
      ∃ pre key post, getAllKeys tnp.vars = pre ++ key :: post ∧
        tnp.didYouMean isPrintTable varName
          = "\n\n Did you mean ".toList ++ Quote isPrintTable key ++ "?".toList ∧
        DistanceForStrings varName key DefaultOptions < 5 ∧
        (∀ k ∈ pre, DistanceForStrings varName key DefaultOptions
          < DistanceForStrings varName k DefaultOptions) ∧
        ∀ k ∈ post, DistanceForStrings varName key DefaultOptions
          ≤ DistanceForStrings varName k DefaultOptions := by
  rcases didYouMean_foldl varName (getAllKeys tnp.vars) (5, []) with ⟨h1, h2⟩ | h
  · left
    refine ⟨?_, h2⟩
    simp only [ErrTemplateExecError.didYouMean, didYouMeanLoop, h1]
    simp
  · right
    obtain ⟨pre, key, post, h1, h2, h3, h4, h5⟩ := h
    refine ⟨pre, key, post, h1, ?_, h3, h4, h5⟩
    have hne : key ≠ [] := getAllKeys_mem_ne_nil tnp.vars key (by simp [h1])
    simp only [ErrTemplateExecError.didYouMean, didYouMeanLoop, h2]
    simp [hne]

/-! ## The messages -/

theorem escapedRune_plain (isPrintTable : Char → Bool) (c : Char)
    (h : 0x20 ≤ c.toNat ∧ c.toNat ≤ 0x7E ∧ c ≠ dquote ∧ c ≠ backslash) :
    escapedRune isPrintTable c = [c] := by
  obtain ⟨h1, h2, h3, h4⟩ := h
  have hp : IsPrint isPrintTable c = true := by
    unfold IsPrint
    rw [if_pos (by omega), if_pos ⟨h1, h2⟩]
  simp [escapedRune, h3, h4, hp]

theorem Quote_plain (isPrintTable : Char → Bool) (s : Str) (h : PlainASCII s) :
    Quote isPrintTable s = dquote :: (s ++ [dquote]) := by
  have : s.flatMap (escapedRune isPrintTable) = s := by
    induction s with
    | nil => rfl
    | cons c s ih =>
      rw [List.flatMap_cons, escapedRune_plain isPrintTable c (h c (by simp)),
        ih (fun d hd => h d (List.mem_cons_of_mem _ hd))]
      rfl
  rw [Quote, this]

theorem TrimSuffix_append (x suffix : Str) : TrimSuffix (x ++ suffix) suffix = x := by
  have : suffix.isSuffixOf (x ++ suffix) = true := by
    rw [List.isSuffixOf_iff_suffix]; exact List.suffix_append x suffix
  simp [TrimSuffix, this]

theorem TrimSuffix_of_not_suffix (s suffix : Str) (h : ¬ suffix <:+ s) :
    TrimSuffix s suffix = s := by
  have : suffix.isSuffixOf s = false := by
    rw [← Bool.not_eq_true, List.isSuffixOf_iff_suffix]; exact h
  simp [TrimSuffix, this]

theorem TrimSuffix_initial (s suffix : Str) : TrimSuffix s suffix <+: s := by
  unfold TrimSuffix
  split
  · exact List.take_prefix _ _
  · exact List.prefix_refl s

theorem PlainASCII_TrimSuffix (s suffix : Str) (h : PlainASCII s) :
    PlainASCII (TrimSuffix s suffix) :=
  fun c hc => h c ((TrimSuffix_initial s suffix).subset hc)

theorem lowerhex_ne_newline (n : Nat) : lowerhex n ≠ newline := by
  by_cases h : n < 16
  · interval_cases n <;> decide
  · have : lowerhex n = '0' := by
      unfold lowerhex
      rw [List.getD_eq_default]
      simp only [String.toList]
      simp only [List.length_cons, List.length_nil]
      omega
    rw [this]; decide

theorem hexDigits_no_newline (n r : Nat) : newline ∉ hexDigits n r := by
  induction n with
  | zero => simp [hexDigits]
  | succ n ih =>
    simp only [hexDigits, List.mem_cons, not_or]
    exact ⟨fun h => lowerhex_ne_newline _ h.symm, ih⟩

theorem IsPrint_newline (isPrintTable : Char → Bool) : IsPrint isPrintTable newline = false := by
  simp [IsPrint, newline]

theorem not_mem_ite {p : Prop} [Decidable p] {a b : Str} (ha : newline ∉ a)
    (hb : newline ∉ b) : newline ∉ (if p then a else b) := by
  split <;> assumption

theorem not_mem_hex (d : Char) (hd : newline ≠ d) (n r : Nat) :
    newline ∉ backslash :: d :: hexDigits n r := by
  have hb : newline ≠ backslash := by decide
  simp only [List.mem_cons, not_or]
  exact ⟨hb, hd, hexDigits_no_newline n r⟩

theorem escapedRune_no_newline (isPrintTable : Char → Bool) (c : Char) :
    newline ∉ escapedRune isPrintTable c := by
  have hq : newline ≠ dquote := by decide
  have hb : newline ≠ backslash := by decide
  unfold escapedRune
  by_cases h1 : c = dquote ∨ c = backslash
  · rw [if_pos h1]
    rcases h1 with h1 | h1 <;> rw [h1] <;> decide
  · rw [if_neg h1]
    by_cases h2 : IsPrint isPrintTable c = true
    · rw [if_pos h2]
      simp only [List.mem_singleton]
      intro h
      rw [← h, IsPrint_newline] at h2
      exact absurd h2 (by simp)
    · rw [if_neg h2]
      refine not_mem_ite (by decide) (not_mem_ite (by decide) (not_mem_ite (by decide)
        (not_mem_ite (by decide) (not_mem_ite (by decide) (not_mem_ite (by decide)
        (not_mem_ite (by decide) (not_mem_ite ?_ (not_mem_ite ?_ ?_))))))))
      · exact not_mem_hex 'x' (by decide) _ _
      · exact not_mem_hex 'u' (by decide) _ _
      · exact not_mem_hex 'U' (by decide) _ _

theorem Quote_no_newline (isPrintTable : Char → Bool) (s : Str) :
    newline ∉ Quote isPrintTable s := by
  have hq : newline ≠ dquote := by decide
  simp only [Quote, List.mem_cons, List.mem_append, List.mem_flatMap, List.mem_singleton,
    List.not_mem_nil, or_false, hq, false_or, not_exists, not_and]
  intro c _
  exact escapedRune_no_newline isPrintTable c

/-! ## The distance of `DistanceForStrings` as an edit distance -/

theorem levenshtein_snoc_nil (C : Levenshtein.Cost Char Char ℕ) (a : Char) (s : Str) :
    levenshtein C (s ++ [a]) [] = levenshtein C s [] + C.delete a := by
  induction s with
  | nil => simp
  | cons x s ih =>
    simp only [List.cons_append, levenshtein_cons_nil, ih]
    omega

theorem levenshtein_nil_snoc (C : Levenshtein.Cost Char Char ℕ) (b : Char) (t : Str) :
    levenshtein C [] (t ++ [b]) = levenshtein C [] t + C.insert b := by
  induction t with
  | nil => simp
  | cons y t ih =>
    simp only [List.cons_append, levenshtein_nil_cons, ih]
    omega

/-- The recurrence of the edit distance at the last runes of the two texts. -/
theorem levenshtein_snoc_snoc (C : Levenshtein.Cost Char Char ℕ) (a b : Char) (s t : Str) :
    levenshtein C (s ++ [a]) (t ++ [b])
      = min (levenshtein C s (t ++ [b]) + C.delete a)
          (min (levenshtein C s t + C.substitute a b)
            (levenshtein C (s ++ [a]) t + C.insert b)) := by
  induction s generalizing t with
  | nil =>
    induction t with
    | nil =>
      simp only [List.nil_append, levenshtein_cons_cons, levenshtein_nil_cons,
        levenshtein_cons_nil, levenshtein_nil_nil]
      apply le_antisymm <;> simp only [le_min_iff, min_le_iff] <;> omega
    | cons y t iht =>
      have h1 := levenshtein_nil_snoc C b t
      simp only [List.nil_append] at iht
      simp only [List.nil_append, List.cons_append, levenshtein_cons_cons, levenshtein_nil_cons,
        levenshtein_cons_nil, levenshtein_nil_nil, iht, h1]
      apply le_antisymm <;>
        simp only [le_min_iff, min_le_iff, ← Nat.add_min_add_left, ← Nat.add_min_add_right] <;>
        omega
  | cons x s ihs =>
    induction t with
    | nil =>
      have h1 := levenshtein_snoc_nil C a s
      have h2 := ihs []
      simp only [List.nil_append] at h2
      simp only [List.nil_append, List.cons_append, levenshtein_cons_cons, levenshtein_nil_cons,
        levenshtein_cons_nil, levenshtein_nil_nil, h1, h2]
      apply le_antisymm <;>
        simp only [le_min_iff, min_le_iff, ← Nat.add_min_add_left, ← Nat.add_min_add_right] <;>
        omega
    | cons y t iht =>
      have h1 := ihs (y :: t)
      have h2 := ihs t
      simp only [List.cons_append] at h1 iht
      simp only [List.cons_append, levenshtein_cons_cons, h1, h2, iht]
      apply le_antisymm <;>
        simp only [le_min_iff, min_le_iff, ← Nat.add_min_add_left, ← Nat.add_min_add_right] <;>
        omega

theorem matrixRow_cons (C : Levenshtein.Cost Char Char ℕ) (s done bs : Str) :
    ∃ tl, matrixRow C s done bs = levenshtein C s done :: tl := by
  cases bs with
  | nil => exact ⟨[], rfl⟩
  | cons b bs => exact ⟨_, rfl⟩

theorem levenshtein_nil_right (op : Options) (s : Str) :
    levenshtein op.cost s [] = s.length * op.DelCost := by
  induction s with
  | nil => simp
  | cons x s ih =>
    rw [levenshtein_cons_nil, ih, List.length_cons, Nat.succ_mul]
    simp only [Options.cost]
    omega

theorem levenshtein_nil_left (op : Options) (t : Str) :
    levenshtein op.cost [] t = t.length * op.InsCost := by
  induction t with
  | nil => simp
  | cons y t ih =>
    rw [levenshtein_nil_cons, ih, List.length_cons, Nat.succ_mul]
    simp only [Options.cost]
    omega

theorem fillRow_eq (op : Options) (a : Char) (s : Str) (done bs : Str) :
    matrixRow op.cost (s ++ [a]) done bs
      = levenshtein op.cost (s ++ [a]) done
        :: fillRow op a bs (matrixRow op.cost s done bs) (levenshtein op.cost (s ++ [a]) done) := by
  induction bs generalizing done with
  | nil => simp [matrixRow, fillRow]
  | cons b bs ih =>
    obtain ⟨tl, htl⟩ := matrixRow_cons op.cost s (done ++ [b]) bs
    have hcell : min (levenshtein op.cost s (done ++ [b]) + op.DelCost)
        (min (if op.Matches a b then levenshtein op.cost s done
            else levenshtein op.cost s done + op.SubCost)
          (levenshtein op.cost (s ++ [a]) done + op.InsCost))
        = levenshtein op.cost (s ++ [a]) (done ++ [b]) := by
      rw [levenshtein_snoc_snoc]
      simp only [Options.cost]
      split <;> simp
    rw [matrixRow, ih (done ++ [b])]
    conv_rhs => rw [matrixRow, htl, fillRow]
    simp only [hcell, ← htl]

theorem matrixRow_nil (op : Options) (done bs : Str) :
    matrixRow op.cost [] done bs
      = (List.range (bs.length + 1)).map (fun j => (done.length + j) * op.InsCost) := by
  induction bs generalizing done with
  | nil => simp [matrixRow, levenshtein_nil_left, List.range_succ]
  | cons b bs ih =>
    rw [matrixRow, ih, List.length_cons, List.range_succ_eq_map (bs.length + 1)]
    simp only [List.map_cons, List.map_map, levenshtein_nil_left, Nat.add_zero, List.length_append,
      List.length_singleton]
    congr 1
    apply List.map_congr_left
    intro j _
    simp only [Function.comp]
    congr 1
    omega

theorem fillRows_eq (op : Options) (target rest s : Str) :
    fillRows op target rest (s.length + 1) (matrixRow op.cost s [] target)
      = matrixRow op.cost (s ++ rest) [] target := by
  induction rest generalizing s with
  | nil => simp [fillRows]
  | cons a rest ih =>
    have h := fillRow_eq op a s [] target
    rw [levenshtein_nil_right] at h
    rw [fillRows]
    have hlen : (s ++ [a]).length = s.length + 1 := by simp
    rw [← hlen, ← h, hlen, ← hlen, ih (s ++ [a])]
    simp

theorem matrixRow_getD (C : Levenshtein.Cost Char Char ℕ) (s done bs : Str) :
    (matrixRow C s done bs).getD bs.length 0 = levenshtein C s (done ++ bs) := by
  induction bs generalizing done with
  | nil => simp [matrixRow]
  | cons b bs ih =>
    rw [matrixRow, List.length_cons, List.getD_cons_succ, ih]
    simp

/-- The function `DistanceForStrings` computes the edit distance of Mathlib's
`levenshtein` for the costs of its options. -/
theorem DistanceForStrings_eq_levenshtein (source target : Str) (op : Options) :
    DistanceForStrings source target op = levenshtein op.cost source target := by
  have h0 := matrixRow_nil op [] target
  simp only [List.length_nil, Nat.zero_add] at h0
  have h := fillRows_eq op target source []
  simp only [List.length_nil, Nat.zero_add, List.nil_append] at h
  rw [DistanceForStrings, ← h0, h, matrixRow_getD]
  simp

theorem DefaultOptions_cost : DefaultOptions.cost = substitutionTwoCost := by
  simp [Options.cost, DefaultOptions, substitutionTwoCost]

/-- Under `DefaultOptions` the distance is the edit distance in which a substitution
costs 2. -/
theorem DistanceForStrings_default (source target : Str) :
    DistanceForStrings source target DefaultOptions
      = levenshtein substitutionTwoCost source target := by
  rw [DistanceForStrings_eq_levenshtein, DefaultOptions_cost]

/-! ## The pattern on one line -/

theorem dropLit_line (lit x post : Str) (hlit : newline ∉ lit) :
    dropLit lit (x ++ newline :: post) = (dropLit lit x).map (fun r => r ++ newline :: post) := by
  induction lit generalizing x with
  | nil => simp [dropLit]
  | cons a l ih =>
    have ha : a ≠ newline := fun h => hlit (by simp [h])
    have hl : newline ∉ l := fun h => hlit (List.mem_cons_of_mem _ h)
    cases x with
    | nil => simp [dropLit, ha]
    | cons b x =>
      by_cases hab : a = b
      · simp [dropLit, hab, ih x hl]
      · simp [dropLit, hab]

theorem dropLit_no_newline (lit x r : Str) (h : dropLit lit x = some r) (hx : newline ∉ x) :
    newline ∉ r := by
  rw [dropLit_eq_some_iff] at h
  subst h
  exact fun hr => hx (List.mem_append_right _ hr)

theorem dotStar_line {α : Type} (k : Str → Option α) (post : Str)
    (hk : ∀ x, newline ∉ x → k (x ++ newline :: post) = k x) (x : Str) (hx : newline ∉ x) :
    dotStar k (x ++ newline :: post) = dotStar k x := by
  induction x with
  | nil =>
    have := hk [] (by simp)
    simp only [List.nil_append] at this
    simp [dotStar, this]
  | cons c cs ih =>
    have hc : c ≠ newline := fun h => hx (by simp [h])
    have hcs : newline ∉ cs := fun h => hx (List.mem_cons_of_mem _ h)
    have h1 := hk (c :: cs) hx
    simp only [List.cons_append] at h1
    rw [List.cons_append, dotStar, dotStar, if_neg hc, if_neg hc, ih hcs, h1]

theorem matchErr_line (post x : Str) (hx : newline ∉ x) :
    matchErr (x ++ newline :: post) = matchErr x := by
  simp only [matchErr, dropLit_line litErr x post (by decide), Option.map_map]
  cases h : dropLit litErr x with
  | none => rfl
  | some r =>
    have hr := dropLit_no_newline _ _ _ h hx
    simp only [Option.map_some', Function.comp, Option.some.injEq]
    rw [List.takeWhile_append_of_pos, takeWhile_not_newline r hr]
    · simp [List.takeWhile, newline]
    · intro c hc
      simp only [bne_iff_ne, ne_eq]
      rintro rfl
      exact hr hc

theorem matchAt_line (post x : Str) (hx : newline ∉ x) :
    matchAt (x ++ newline :: post) = matchAt x := by
  simp only [matchAt, dropLit_line litAt x post (by decide)]
  cases h : dropLit litAt x with
  | none => rfl
  | some r =>
    have hr := dropLit_no_newline _ _ _ h hx
    simp only [Option.map_some', Option.some_bind]
    exact dotStar_line matchErr post (matchErr_line post) r hr

theorem matchExecuting_line (post x : Str) (hx : newline ∉ x) :
    matchExecuting (x ++ newline :: post) = matchExecuting x := by
  simp only [matchExecuting, dropLit_line litExecuting x post (by decide)]
  cases h : dropLit litExecuting x with
  | none => rfl
  | some r =>
    have hr := dropLit_no_newline _ _ _ h hx
    simp only [Option.map_some', Option.some_bind]
    exact dotStar_line matchAt post (matchAt_line post) r hr

/-- A match that starts on a line reads that line only. -/
theorem matchHere_line (post x : Str) (hx : newline ∉ x) :
    matchHere (x ++ newline :: post) = matchHere x := by
  simp only [matchHere, dropLit_line litTemplate x post (by decide)]
  cases h : dropLit litTemplate x with
  | none => rfl
  | some r =>
    have hr := dropLit_no_newline _ _ _ h hx
    simp only [Option.map_some', Option.some_bind]
    rw [dotStar_line matchExecuting post (matchExecuting_line post) r hr]

theorem FindStringSubmatch_skip (pre rest : Str)
    (h : ∀ a b, pre = a ++ b → b ≠ [] → matchHere (b ++ rest) = none) :
    FindStringSubmatch (pre ++ rest) = FindStringSubmatch rest := by
  induction pre with
  | nil => rfl
  | cons c cs ih =>
    have h1 := h [] (c :: cs) rfl (by simp)
    simp only [List.cons_append] at h1
    rw [List.cons_append, FindStringSubmatch, h1]
    exact ih (fun a b hab hb => h (c :: a) b (by simp [hab]) hb)

theorem FindStringSubmatch_of_matchHere (s : Str) (m : Submatch) (h : matchHere s = some m) :
    FindStringSubmatch s = some m := by
  cases s with
  | nil => simpa [FindStringSubmatch] using h
  | cons c cs => simp [FindStringSubmatch, h]

/-- A match cannot start before a line feed and end behind it. -/
theorem matchHere_before_newline (b rest : Str) (h : matchHere b = none) :
    matchHere (b ++ newline :: rest) = none := by
  by_contra hne
  obtain ⟨T, E, P, s1, hT, hE, hP, hs⟩ := (matchHere_ne_none_iff _).1 hne
  have hX : newline ∉ litTemplate ++ T ++ litExecuting ++ E ++ litAt ++ P ++ litErr := by
    simp only [List.mem_append, not_or]
    exact ⟨⟨⟨⟨⟨⟨by decide, hT⟩, by decide⟩, hE⟩, by decide⟩, hP⟩, by decide⟩
  rcases List.append_eq_append_iff.1 hs with ⟨a, ha, hb⟩ | ⟨c, hc, hd⟩
  · cases a with
    | nil =>
      simp only [List.append_nil] at ha
      exact (matchHere_ne_none_iff b).2 ⟨T, E, P, [], hT, hE, hP, by rw [← ha]; simp⟩ h
    | cons a0 a =>
      simp only [List.cons_append, List.cons.injEq] at hb
      exact hX (by rw [ha, ← hb.1]; simp)
  · exact (matchHere_ne_none_iff b).2 ⟨T, E, P, c, hT, hE, hP, hc⟩ h

theorem no_match_of_FindStringSubmatch (pre : Str) (h : FindStringSubmatch pre = none) :
    ¬ ∃ a T1 E1 P1 b, newline ∉ T1 ∧ newline ∉ E1 ∧ newline ∉ P1 ∧
      pre = a ++ "template: ".toList ++ T1 ++ ": executing \"".toList ++ E1
        ++ "\" at <".toList ++ P1 ++ ">: ".toList ++ b := by
  have h1 := FindStringSubmatch_ne_none_iff pre
  simp only [litTemplate, litExecuting, litAt, litErr] at h1
  rw [← h1]
  simp [h]

theorem FindStringSubmatch_multiline (T E P M pre post : Str) (hT : PlainField T)
    (hE : PlainField E) (hP : PlainField P) (hM : PlainField M)
    (hpre : FindStringSubmatch pre = none) :
    FindStringSubmatch (pre ++ [newline]
        ++ (litTemplate ++ T ++ litExecuting ++ E ++ litAt ++ P ++ litErr ++ M)
        ++ newline :: post)
      = some ⟨T, E, P, M⟩ := by
  have hline : newline ∉ litTemplate ++ T ++ litExecuting ++ E ++ litAt ++ P ++ litErr ++ M := by
    simp only [List.mem_append, not_or]
    exact ⟨⟨⟨⟨⟨⟨⟨by decide, hT.2.2⟩, by decide⟩, hE.2.2⟩, by decide⟩, hP.2.2⟩, by decide⟩, hM.2.2⟩
  have hL : matchHere ((litTemplate ++ T ++ litExecuting ++ E ++ litAt ++ P ++ litErr ++ M)
      ++ newline :: post) = some ⟨T, E, P, M⟩ := by
    rw [matchHere_line post _ hline]
    exact matchHere_plain T E P M hT hE hP hM
  rw [List.append_assoc (pre ++ [newline]), FindStringSubmatch_skip (pre ++ [newline])]
  · exact FindStringSubmatch_of_matchHere _ _ hL
  · intro a b hab hb
    have hnone := (FindStringSubmatch_eq_none_iff pre).1 hpre
    rcases List.eq_nil_or_concat b with rfl | ⟨b1, c, rfl⟩
    · exact absurd rfl hb
    · have hab1 : pre ++ [newline] = (a ++ b1) ++ [c] := by simp [hab]
      obtain ⟨hp, hc⟩ := List.append_inj' hab1 rfl
      simp only [List.cons.injEq, and_true] at hc
      subst hc
      have := matchHere_before_newline b1
        ((litTemplate ++ T ++ litExecuting ++ E ++ litAt ++ P ++ litErr ++ M) ++ newline :: post)
        (hnone a b1 hp)
      simpa using this

/-! ## Narrowing -/

theorem As_exec_eq (e : ErrRenderError) (t : ErrTemplateExecError) :
    e.As (.exec t) = match FindStringSubmatch e.err with
      | none => (false, .exec t)
      | some m => (true, .exec (fillTarget e m)) := by
  cases h : FindStringSubmatch e.err <;> simp [ErrRenderError.As, h]

theorem As_nilPointer_eq (e : ErrRenderError) (t : ErrTemplateNilPointerError) :
    e.As (.nilPointer t) = match FindStringSubmatch e.err with
      | none => (false, .nilPointer t)
      | some m =>
        if Contains m.Err nilPointerText then (true, .nilPointer ⟨fillTarget e m⟩)
        else (false, .nilPointer t) := by
  cases h : FindStringSubmatch e.err with
  | none => simp [ErrRenderError.As, h]
  | some m =>
    by_cases hc : Contains m.Err nilPointerText = true
    · simp [ErrRenderError.As, h, hc]
    · simp [ErrRenderError.As, h, hc]

theorem Narrowing_call_e (s : Narrowing) (k : Kind) : (s.call k).2.e = s.e := by
  cases k with
  | exec =>
    simp only [Narrowing.call, As_exec_eq]
    cases FindStringSubmatch s.e.err <;> rfl
  | nilPointer =>
    simp only [Narrowing.call, As_nilPointer_eq]
    cases FindStringSubmatch s.e.err with
    | none => rfl
    | some m => by_cases hc : Contains m.Err nilPointerText = true <;> simp [hc]

theorem Narrowing_run_e (s : Narrowing) (ks : List Kind) : (s.run ks).e = s.e := by
  induction ks generalizing s with
  | nil => rfl
  | cons k ks ih => rw [Narrowing.run, ih, Narrowing_call_e]

/-- The outcome of a call depends on the render error only: two callers with the same
render error get the same boolean and, on success, the same target. -/
theorem Narrowing_call_congr (s s1 : Narrowing) (h : s.e = s1.e) (k : Kind) :
    (s.call k).1 = (s1.call k).1 ∧
    ((s.call k).1 = true →
      (k = Kind.exec → (s.call k).2.exec = (s1.call k).2.exec) ∧
      (k = Kind.nilPointer → (s.call k).2.nilPointer = (s1.call k).2.nilPointer)) := by
  cases k with
  | exec =>
    simp only [Narrowing.call, As_exec_eq, h]
    cases FindStringSubmatch s1.e.err <;> simp
  | nilPointer =>
    simp only [Narrowing.call, As_nilPointer_eq, h]
    cases FindStringSubmatch s1.e.err with
    | none => simp
    | some m => by_cases hc : Contains m.Err nilPointerText = true <;> simp [hc]

/-! ## The greedy choice -/

/-- The text captured by `.*` is the longest one behind which the rest matches. -/
theorem dotStar_longest {α : Type} (k : Str → Option α) (s cap : Str) (r : α)
    (h : dotStar k s = some (cap, r)) (cap1 rest1 : Str) (hs : s = cap1 ++ rest1)
    (hcap1 : newline ∉ cap1) (hk : k rest1 ≠ none) : cap1.length ≤ cap.length := by
  induction s generalizing cap cap1 with
  | nil =>
    obtain ⟨rfl, -⟩ := List.append_eq_nil.1 hs.symm
    simp
  | cons c cs ih =>
    cases cap1 with
    | nil => simp
    | cons a cap1 =>
      simp only [List.cons_append, List.cons.injEq] at hs
      obtain ⟨rfl, hcs⟩ := hs
      have hc : c ≠ newline := fun e => hcap1 (by simp [e])
      have hcap1' : newline ∉ cap1 := fun e => hcap1 (List.mem_cons_of_mem _ e)
      rw [dotStar, if_neg hc] at h
      cases hd : dotStar k cs with
      | none =>
        exact absurd ((dotStar_eq_none_iff k cs).1 hd cap1 rest1 hcs hcap1') hk
      | some p =>
        obtain ⟨cap2, r2⟩ := p
        simp only [hd, Option.some.injEq, Prod.mk.injEq] at h
        obtain ⟨rfl, rfl⟩ := h
        simpa using ih cap2 hd cap1 hcs hcap1'

theorem FindStringSubmatch_eq_some (s : Str) (m : Submatch) (h : FindStringSubmatch s = some m) :
    ∃ pre rest, s = pre ++ rest ∧ matchHere rest = some m := by
  induction s with
  | nil => exact ⟨[], [], rfl, by simpa [FindStringSubmatch] using h⟩
  | cons c cs ih =>
    rw [FindStringSubmatch] at h
    cases hm : matchHere (c :: cs) with
    | some m1 =>
      simp only [hm, Option.some.injEq] at h
      subst h
      exact ⟨[], c :: cs, rfl, hm⟩
    | none =>
      simp only [hm] at h
      obtain ⟨pre, rest, h1, h2⟩ := ih h
      exact ⟨c :: pre, rest, by simp [h1], h2⟩

/-- What a match at the head of a text says about the text: the four groups stand
between the literals of the pattern, `Err` is the rest of its line, and each `.*` took
the longest text it could. -/
theorem matchHere_eq_some (s : Str) (m : Submatch) (h : matchHere s = some m) :
    ∃ post, s = litTemplate ++ m.Template ++ litExecuting ++ m.Executing ++ litAt ++ m.At
        ++ litErr ++ m.Err ++ post ∧
      (post = [] ∨ ∃ p, post = newline :: p) ∧ newline ∉ m.Err ∧ newline ∉ m.At ∧
      (∀ P1 b, newline ∉ P1 → m.At ++ litErr ++ m.Err ++ post = P1 ++ litErr ++ b →
        P1.length ≤ m.At.length) ∧
      (∀ T1 E1 P1 b, newline ∉ T1 → newline ∉ E1 → newline ∉ P1 →
        s = litTemplate ++ T1 ++ litExecuting ++ E1 ++ litAt ++ P1 ++ litErr ++ b →
        T1.length ≤ m.Template.length) := by
  simp only [matchHere, Option.bind_eq_some, dropLit_eq_some_iff, Option.map_eq_some'] at h
  obtain ⟨s1, rfl, ⟨T, E, P, M⟩, hT, rfl⟩ := h
  obtain ⟨s2, rfl, -, h2⟩ := dotStar_sound _ _ _ _ hT
  have h2' := h2
  simp only [matchExecuting, Option.bind_eq_some, dropLit_eq_some_iff] at h2
  obtain ⟨s3, rfl, hE⟩ := h2
  obtain ⟨s4, rfl, -, h4⟩ := dotStar_sound _ _ _ _ hE
  simp only [matchAt, Option.bind_eq_some, dropLit_eq_some_iff] at h4
  obtain ⟨s5, rfl, hP⟩ := h4
  obtain ⟨s6, rfl, hPn, h6⟩ := dotStar_sound _ _ _ _ hP
  obtain ⟨s7, rfl, hM⟩ := (matchErr_eq_some_iff _ _).1 h6
  refine ⟨s7.dropWhile (fun c => c != newline), ?_, ?_, ?_, hPn, ?_, ?_⟩
  · simp only [List.append_assoc, hM, List.takeWhile_append_dropWhile]
  · cases hd : s7.dropWhile (fun c => c != newline) with
    | nil => exact Or.inl rfl
    | cons a p =>
      right
      have := List.head_dropWhile_not (fun c => c != newline) s7 (by simp [hd])
      simp only [hd, List.head_cons, Bool.not_eq_true, bne_eq_false_iff_eq] at this
      exact ⟨p, by rw [this]⟩
  · simp only [hM]
    intro hmem
    have := List.mem_takeWhile_imp hmem
    simp at this
  · intro P1 b hP1 hb
    refine dotStar_longest matchErr _ P M hP P1 (litErr ++ b) ?_ hP1
      ((matchErr_ne_none_iff _).2 ⟨b, rfl⟩)
    rw [← List.append_assoc P1, ← hb]
    simp only [List.append_assoc, hM, List.takeWhile_append_dropWhile]
  · intro T1 E1 P1 b hT1 hE1 hP1 hb
    refine dotStar_longest matchExecuting _ T (E, P, M) hT T1
      (litExecuting ++ E1 ++ litAt ++ P1 ++ litErr ++ b) ?_ hT1
      ((matchExecuting_ne_none_iff _).2 ⟨E1, P1, b, hE1, hP1, rfl⟩)
    have := List.append_cancel_left
      (by simpa only [List.append_assoc] using hb :
        litTemplate ++ (T ++ (litExecuting ++ (E ++ (litAt ++ (P ++ (litErr ++ s7))))))
          = litTemplate ++ (T1 ++ (litExecuting ++ (E1 ++ (litAt ++ (P1 ++ (litErr ++ b)))))))
    simpa only [List.append_assoc] using this

theorem matchHere_Err_last (s : Str) (m : Submatch) (h : matchHere s = some m) :
    ¬ litErr <:+: m.Err := by
  obtain ⟨post, -, -, hErr, hAt, hlong, -⟩ := matchHere_eq_some s m h
  rintro ⟨x, y, hxy⟩
  have hx : newline ∉ x := fun hm => hErr (by rw [← hxy]; simp [hm])
  have := hlong (m.At ++ litErr ++ x) (y ++ post)
    (by
      simp only [List.mem_append, not_or]
      exact ⟨⟨hAt, by decide⟩, hx⟩)
    (by rw [← hxy]; simp)
  simp only [List.length_append] at this
  have h3 : litErr.length = 3 := by decide
  omega

/-! ## Enumeration orders -/

theorem keyPaths_perm {b b1 : Binding} (h : Binding.Reorder b b1) :
    (keyPaths b).Perm (keyPaths b1) := by
  induction h with
  | refl b => exact List.Perm.refl _
  | cons k v _ ih =>
    simp only [keyPaths]
    exact List.Perm.cons _ (List.Perm.append_left _ ih)
  | nested k b _ ih =>
    simp only [keyPaths, valuePaths]
    exact List.Perm.cons _ (List.Perm.append_right _ (List.Perm.map _ ih))
  | swap k1 v1 k2 v2 b =>
    simp only [keyPaths]
    rw [List.perm_iff_count]
    intro p
    simp only [List.count_cons, List.count_append]
    omega
  | trans _ _ ih1 ih2 => exact List.Perm.trans ih1 ih2

theorem getAllKeys_perm {b b1 : Binding} (h : Binding.Reorder b b1) :
    (getAllKeys b).Perm (getAllKeys b1) := by
  rw [getAllKeys_eq, getAllKeys_eq]
  exact List.Perm.map _ (keyPaths_perm h)

theorem Reorder_symm {b b1 : Binding} (h : Binding.Reorder b b1) : Binding.Reorder b1 b := by
  induction h with
  | refl b => exact .refl b
  | cons k v _ ih => exact .cons k v ih
  | nested k b _ ih => exact .nested k b ih
  | swap k1 v1 k2 v2 b => exact .swap k2 v2 k1 v1 b
  | trans _ _ ih1 ih2 => exact .trans ih2 ih1

/-- The variable `out` at the end of the loop of `didYouMean`: empty when every key is
at distance 5 or more, and otherwise a key of least distance, less than 5. -/
theorem didYouMeanLoop_out (varName : Str) (keys : List Str) :
    ((didYouMeanLoop varName keys).2 = [] ∧
        ∀ k ∈ keys, 5 ≤ DistanceForStrings varName k DefaultOptions) ∨
      ((didYouMeanLoop varName keys).2 ∈ keys ∧
        DistanceForStrings varName (didYouMeanLoop varName keys).2 DefaultOptions < 5 ∧
        ∀ k ∈ keys, DistanceForStrings varName (didYouMeanLoop varName keys).2 DefaultOptions
          ≤ DistanceForStrings varName k DefaultOptions) := by
  rcases didYouMean_foldl varName keys (5, []) with ⟨h1, h2⟩ | h
  · left
    exact ⟨by rw [didYouMeanLoop, h1], h2⟩
  · right
    obtain ⟨pre, key, post, h1, h2, h3, h4, h5⟩ := h
    have hout : (didYouMeanLoop varName keys).2 = key := by rw [didYouMeanLoop, h2]
    rw [hout]
    refine ⟨by simp [h1], h3, ?_⟩
    intro k hk
    rw [h1] at hk
    rcases List.mem_append.1 hk with hk | hk
    · exact le_of_lt (h4 k hk)
    · rcases List.mem_cons.1 hk with rfl | hk
      · exact le_refl _
      · exact h5 k hk

theorem didYouMean_eq_of_out (isPrintTable : Char → Bool) (tnp tnp1 : ErrTemplateExecError)
    (varName : Str)
    (h : (didYouMeanLoop varName (getAllKeys tnp.vars)).2
      = (didYouMeanLoop varName (getAllKeys tnp1.vars)).2) :
    tnp.didYouMean isPrintTable varName = tnp1.didYouMean isPrintTable varName := by
  simp only [ErrTemplateExecError.didYouMean, h]

theorem didYouMean_ne_nil_iff_out (isPrintTable : Char → Bool) (tnp : ErrTemplateExecError)
    (varName : Str) :
    tnp.didYouMean isPrintTable varName ≠ [] ↔
      (didYouMeanLoop varName (getAllKeys tnp.vars)).2 ≠ [] := by
  simp only [ErrTemplateExecError.didYouMean]
  by_cases h : (didYouMeanLoop varName (getAllKeys tnp.vars)).2 = []
  · simp [h]
  · simp [h]

/-- The loop of `didYouMean` on two orders of the same keys. -/
theorem didYouMeanLoop_perm (varName : Str) (keys keys1 : List Str) (h : keys.Perm keys1)
    (hnil : [] ∉ keys) :
    ((didYouMeanLoop varName keys).2 = [] ↔ (didYouMeanLoop varName keys1).2 = []) ∧
    DistanceForStrings varName (didYouMeanLoop varName keys).2 DefaultOptions
      = DistanceForStrings varName (didYouMeanLoop varName keys1).2 DefaultOptions ∧
    ((∀ k ∈ keys, DistanceForStrings varName k DefaultOptions
        = DistanceForStrings varName (didYouMeanLoop varName keys).2 DefaultOptions →
        k = (didYouMeanLoop varName keys).2) →
      (didYouMeanLoop varName keys1).2 = (didYouMeanLoop varName keys).2) := by
  rcases didYouMeanLoop_out varName keys with ⟨h1, h2⟩ | ⟨h1, h2, h3⟩ <;>
    rcases didYouMeanLoop_out varName keys1 with ⟨g1, g2⟩ | ⟨g1, g2, g3⟩
  · rw [h1, g1]
    exact ⟨Iff.rfl, rfl, fun _ => rfl⟩
  · have := h2 _ (h.mem_iff.2 g1)
    omega
  · have := g2 _ (h.mem_iff.1 h1)
    omega
  · have e1 := h3 _ (h.mem_iff.2 g1)
    have e2 := g3 _ (h.mem_iff.1 h1)
    have heq := le_antisymm e1 e2
    refine ⟨?_, heq, fun huniq => huniq _ (h.mem_iff.2 g1) heq.symm⟩
    constructor
    · intro h0
      rw [h0] at h1
      exact absurd h1 hnil
    · intro h0
      rw [h0] at g1
      exact absurd (h.mem_iff.2 g1) hnil

theorem testBinding_reordered : Binding.Reorder testBinding testBindingReordered :=
  .cons _ _ (.nested _ _ (.swap _ _ _ _ _))

theorem mem_Join_infix (sep l : Str) (lines : List Str) (h : l ∈ lines) :
    l <:+: Join lines sep := by
  induction lines with
  | nil => simp at h
  | cons a rest ih =>
    cases rest with
    | nil =>
      simp only [List.mem_singleton] at h
      subst h
      simp [Join, List.intercalate]
    | cons b rest =>
      rw [Join_cons_cons]
      rcases List.mem_cons.1 h with rfl | h
      · exact ⟨[], sep ++ Join (b :: rest) sep, by simp⟩
      · obtain ⟨x, y, hxy⟩ := ih h
        exact ⟨a ++ sep ++ x, y, by simp [← hxy]⟩

theorem claimedFailure_match :
    FindStringSubmatch claimedFailure
      = some ⟨"test:1:8".toList, "test".toList, ".bad.string".toList,
          "nil pointer evaluating interface \x7b\x7d.string".toList⟩ := by
  decide

theorem testBinding_suggestion (isPrintTable : Char → Bool) (tnp : ErrTemplateExecError)
    (h : Binding.Reorder testBinding tnp.vars) :
    tnp.didYouMean isPrintTable ".bad.string".toList
      = "\n\n Did you mean \".map.string\"?".toList := by
  have hperm := getAllKeys_perm h
  have h0 : getAllKeys testBinding
      = [".foo".toList, ".map".toList, ".map.int".toList, ".map.bool".toList,
        ".map.string".toList] := by decide
  rw [h0] at hperm
  have hq : Quote isPrintTable ".map.string".toList = "\".map.string\"".toList := by
    rw [Quote_plain isPrintTable _ (by decide)]
    decide
  rcases didYouMean_eq_nil_or isPrintTable tnp ".bad.string".toList with ⟨-, h2⟩ | h2
  · have := h2 ".map.string".toList (hperm.mem_iff.1 (by decide))
    exact absurd this (by decide)
  · obtain ⟨pre, key, post, h1, h3, h4, -, -⟩ := h2
    have hk : key ∈ [".foo".toList, ".map".toList, ".map.int".toList, ".map.bool".toList,
        ".map.string".toList] := hperm.mem_iff.2 (by rw [h1]; simp)
    simp only [List.mem_cons, List.mem_singleton, List.not_mem_nil, or_false] at hk
    rcases hk with rfl | rfl | rfl | rfl | rfl
    · exact absurd h4 (by decide)
    · exact absurd h4 (by decide)
    · exact absurd h4 (by decide)
    · exact absurd h4 (by decide)
    · rw [h3, hq]
      decide

theorem testBinding_lines (isPrintTable : Char → Bool) (b : Binding)
    (h : Binding.Reorder testBinding b) :
    ((getAllKeys b).map (fun k => "     ".toList ++ Quote isPrintTable k)).Perm
      ["     \".foo\"".toList, "     \".map\"".toList, "     \".map.int\"".toList,
        "     \".map.bool\"".toList, "     \".map.string\"".toList] := by
  have hperm := (getAllKeys_perm h).symm
  have h0 : getAllKeys testBinding
      = [".foo".toList, ".map".toList, ".map.int".toList, ".map.bool".toList,
        ".map.string".toList] := by decide
  rw [h0] at hperm
  have hm := List.Perm.map (fun k => "     ".toList ++ Quote isPrintTable k) hperm
  have hl : [".foo".toList, ".map".toList, ".map.int".toList, ".map.bool".toList,
        ".map.string".toList].map (fun k => "     ".toList ++ Quote isPrintTable k)
      = ["     \".foo\"".toList, "     \".map\"".toList, "     \".map.int\"".toList,
        "     \".map.bool\"".toList, "     \".map.string\"".toList] := by
    simp only [List.map_cons, List.map_nil]
    rw [Quote_plain isPrintTable ".foo".toList (by decide),
      Quote_plain isPrintTable ".map".toList (by decide),
      Quote_plain isPrintTable ".map.int".toList (by decide),
      Quote_plain isPrintTable ".map.bool".toList (by decide),
      Quote_plain isPrintTable ".map.string".toList (by decide)]
    decide
  rw [hl] at hm
  exact hm

/-! ## The deep copy -/

theorem readEntries_congr (read read1 : Nat → Option Binding)
    (hr : ∀ a b, read a = some b → read1 a = some b) (es : MapObject) (bs : Binding)
    (h : readEntries read es = some bs) : readEntries read1 es = some bs := by
  induction es generalizing bs with
  | nil => simpa [readEntries] using h
  | cons e es ih =>
    obtain ⟨k, v⟩ := e
    cases v with
    | scalar =>
      simp only [readEntries, Option.map_eq_some'] at h ⊢
      obtain ⟨r, hr1, rfl⟩ := h
      exact ⟨r, ih r hr1, rfl⟩
    | ref a =>
      simp only [readEntries, Option.bind_eq_some, Option.map_eq_some'] at h ⊢
      obtain ⟨x, hx, r, hr1, rfl⟩ := h
      exact ⟨x, hr a x hx, r, ih r hr1, rfl⟩

/-- Reading a binding looks at the maps in use only: a heap that keeps them reads the
same binding. -/
theorem readBinding_mono (h h1 : Heap) (hagree : ∀ x, x < h.length → h1[x]? = h[x]?)
    (fuel a : Nat) (b : Binding) (hb : readBinding h fuel a = some b) :
    readBinding h1 fuel a = some b := by
  induction fuel generalizing a b with
  | zero => simp [readBinding] at hb
  | succ n ih =>
    simp only [readBinding, Option.bind_eq_some] at hb ⊢
    obtain ⟨obj, hobj, hread⟩ := hb
    have ha : a < h.length := by
      obtain ⟨ha, -⟩ := List.getElem?_eq_some.1 hobj
      exact ha
    exact ⟨obj, by rw [hagree a ha, hobj], readEntries_congr _ _ ih obj b hread⟩

theorem copyEntries_spec (n : Nat)
    (hcopy : ∀ a h b, readBinding h n a = some b →
      ∃ h1 a1, copyMap n a h = some (h1, a1) ∧ (∃ ext, h1 = h ++ ext) ∧
        ∀ h2 : Heap, (∀ x, h.length ≤ x → x < h1.length → h2[x]? = h1[x]?) →
          readBinding h2 n a1 = some b)
    (es : MapObject) (h : Heap) (bs : Binding)
    (hread : readEntries (readBinding h n) es = some bs) :
    ∃ h1 es1, copyEntries (copyMap n) es h = some (h1, es1) ∧ (∃ ext, h1 = h ++ ext) ∧
      ∀ h2 : Heap, (∀ x, h.length ≤ x → x < h1.length → h2[x]? = h1[x]?) →
        readEntries (readBinding h2 n) es1 = some bs := by
  induction es generalizing h bs with
  | nil =>
    refine ⟨h, [], rfl, ⟨[], by simp⟩, fun h2 _ => ?_⟩
    simpa [readEntries] using hread
  | cons e es ih =>
    obtain ⟨k, v⟩ := e
    cases v with
    | scalar =>
      simp only [readEntries, Option.map_eq_some'] at hread
      obtain ⟨r, hr1, rfl⟩ := hread
      obtain ⟨h1, es1, hc, hext, hrd⟩ := ih h r hr1
      refine ⟨h1, (k, .scalar) :: es1, by simp [copyEntries, hc], hext, fun h2 hag => ?_⟩
      simp only [readEntries, Option.map_eq_some']
      exact ⟨r, hrd h2 hag, rfl⟩
    | ref a =>
      simp only [readEntries, Option.bind_eq_some, Option.map_eq_some'] at hread
      obtain ⟨x, hx, r, hr1, rfl⟩ := hread
      obtain ⟨h', a1, hc1, ⟨ext1, rfl⟩, hrd1⟩ := hcopy a h x hx
      have hr2 : readEntries (readBinding (h ++ ext1) n) es = some r :=
        readEntries_congr _ _
          (readBinding_mono h (h ++ ext1) (fun y hy => List.getElem?_append_left hy) n) es r hr1
      obtain ⟨h1, es1, hc2, ⟨ext2, rfl⟩, hrd2⟩ := ih (h ++ ext1) r hr2
      refine ⟨h ++ ext1 ++ ext2, (k, .ref a1) :: es1, by simp [copyEntries, hc1, hc2],
        ⟨ext1 ++ ext2, by simp⟩, fun h2 hag => ?_⟩
      simp only [readEntries, Option.bind_eq_some, Option.map_eq_some']
      refine ⟨x, hrd1 h2 (fun y hy1 hy2 => ?_), r, hrd2 h2 (fun y hy1 hy2 => ?_), rfl⟩
      · rw [hag y hy1 (by simp only [List.length_append] at hy2 ⊢; omega)]
        exact List.getElem?_append_left hy2
      · exact hag y (by simp only [List.length_append] at hy1; omega) hy2

/-- The deep copy of a binding that the heap holds succeeds; it adds maps to the heap
and changes none, and the copy reads as the same binding in every heap that keeps the
added maps. -/
theorem copyMap_spec (fuel : Nat) (a : Nat) (h : Heap) (b : Binding)
    (hread : readBinding h fuel a = some b) :
    ∃ h1 a1, copyMap fuel a h = some (h1, a1) ∧ (∃ ext, h1 = h ++ ext) ∧
      ∀ h2 : Heap, (∀ x, h.length ≤ x → x < h1.length → h2[x]? = h1[x]?) →
        readBinding h2 fuel a1 = some b := by
  induction fuel generalizing a h b with
  | zero => simp [readBinding] at hread
  | succ n ih =>
    simp only [readBinding, Option.bind_eq_some] at hread
    obtain ⟨obj, hobj, hre⟩ := hread
    obtain ⟨h1, es1, hc, ⟨ext, rfl⟩, hrd⟩ := copyEntries_spec n ih obj h b hre
    refine ⟨h ++ ext ++ [es1], (h ++ ext).length, by simp [copyMap, hobj, hc],
      ⟨ext ++ [es1], by simp⟩, fun h2 hag => ?_⟩
    simp only [readBinding, Option.bind_eq_some]
    refine ⟨es1, ?_, hrd h2 (fun y hy1 hy2 => ?_)⟩
    · rw [hag (h ++ ext).length (by simp) (by simp)]
      exact List.getElem?_concat_length _ _
    · rw [hag y hy1 (by simp only [List.length_append] at hy2 ⊢; omega)]
      exact List.getElem?_append_left hy2

/-- On the failure text that C13 names, `claimedFailure`, and the binding of the test
in any enumeration order, `As` narrows to `*ErrTemplateNilPointerError`; the message is
the head
`nil pointer evaluating ".bad.string" in ".bad.string".(test:1:8).`, the suggestion
`Did you mean ".map.string"?` and the valid values, one line for each of the five
flattened keys; so it contains the suggestion and a valid-values line for each of
`.foo`, `.map.int`, `.map.bool` and `.map.string`. -/
theorem claimedFailure_message (isPrintTable : Char → Bool) (b : Binding)
    (h : Binding.Reorder testBinding b) (tn : ErrTemplateNilPointerError) :
    ∃ tn1, (ErrRenderError.mk claimedFailure b).As (.nilPointer tn) = (true, .nilPointer tn1) ∧
      "Did you mean \".map.string\"?".toList <:+: tn1.Error isPrintTable ∧
      (∀ key ∈ [".foo".toList, ".map.int".toList, ".map.bool".toList, ".map.string".toList],
        ("     \"".toList ++ key ++ "\"".toList) <:+: tn1.Error isPrintTable) ∧
      ∃ lines, lines.Perm
          ["     \".foo\"".toList, "     \".map\"".toList, "     \".map.int\"".toList,
            "     \".map.bool\"".toList, "     \".map.string\"".toList] ∧
        tn1.Error isPrintTable
          = "nil pointer evaluating \".bad.string\" in \".bad.string\".(test:1:8).".toList
            ++ "\n\n Did you mean \".map.string\"?".toList
            ++ "\n\n Valid values are:\n".toList ++ Join lines "\n".toList := by
  have hc : Contains "nil pointer evaluating interface \x7b\x7d.string".toList nilPointerText
      = true := by decide
  have hs := testBinding_suggestion isPrintTable
    (fillTarget (ErrRenderError.mk claimedFailure b)
      ⟨"test:1:8".toList, "test".toList, ".bad.string".toList,
        "nil pointer evaluating interface \x7b\x7d.string".toList⟩) h
  have hlines := testBinding_lines isPrintTable b h
  have hq : Quote isPrintTable ".bad.string".toList = "\".bad.string\"".toList := by
    rw [Quote_plain isPrintTable _ (by decide)]
    decide
  have ht : TrimSuffix ".bad.string".toList ('.' :: "test".toList) = ".bad.string".toList := by
    decide
  have herr : ErrTemplateNilPointerError.Error isPrintTable
      ⟨fillTarget (ErrRenderError.mk claimedFailure b)
        ⟨"test:1:8".toList, "test".toList, ".bad.string".toList,
          "nil pointer evaluating interface \x7b\x7d.string".toList⟩⟩
      = "nil pointer evaluating \".bad.string\" in \".bad.string\".(test:1:8).".toList
        ++ "\n\n Did you mean \".map.string\"?".toList
        ++ "\n\n Valid values are:\n".toList
        ++ Join ((getAllKeys b).map (fun k => "     ".toList ++ Quote isPrintTable k))
            "\n".toList := by
    simp only [fillTarget] at hs
    simp only [ErrTemplateNilPointerError.Error, ErrTemplateExecError.validValues, fillTarget]
    rw [hs, ht, hq]
    simp
  refine ⟨⟨fillTarget (ErrRenderError.mk claimedFailure b)
      ⟨"test:1:8".toList, "test".toList, ".bad.string".toList,
        "nil pointer evaluating interface \x7b\x7d.string".toList⟩⟩, ?_, ?_, ?_, ?_⟩
  · rw [As_nilPointer_eq]
    simp only [claimedFailure_match, hc, if_true]
  · rw [herr]
    exact ⟨"nil pointer evaluating \".bad.string\" in \".bad.string\".(test:1:8).\n\n ".toList,
      "\n\n Valid values are:\n".toList
        ++ Join ((getAllKeys b).map (fun k => "     ".toList ++ Quote isPrintTable k))
          "\n".toList, by simp⟩
  · intro key hkey
    have hmem : ("     \"".toList ++ key ++ "\"".toList)
        ∈ (getAllKeys b).map (fun k => "     ".toList ++ Quote isPrintTable k) := by
      rw [hlines.mem_iff]
      simp only [List.mem_cons, List.mem_singleton, List.not_mem_nil, or_false] at hkey
      rcases hkey with rfl | rfl | rfl | rfl <;> decide
    obtain ⟨x, y, hxy⟩ := mem_Join_infix "\n".toList _ _ hmem
    rw [herr, ← hxy]
    exact ⟨"nil pointer evaluating \".bad.string\" in \".bad.string\".(test:1:8).".toList
        ++ "\n\n Did you mean \".map.string\"?".toList
        ++ "\n\n Valid values are:\n".toList ++ x, y, by simp⟩
  · exact ⟨_, hlines, herr⟩

theorem engineFailure_match :
    FindStringSubmatch engineFailure
      = some ⟨"test:1:12".toList, "test".toList, ".bad.string".toList,
          "map has no entry for key \"bad\"".toList⟩ := by
  decide

/-- On the failure that the engine reports in the test, `As` with an
`*ErrTemplateNilPointerError` target returns false, whatever the binding. -/
theorem engineFailure_not_nil_pointer (b : Binding) (tn : ErrTemplateNilPointerError) :
    (ErrRenderError.mk engineFailure b).As (.nilPointer tn) = (false, .nilPointer tn) := by
  have hc : Contains "map has no entry for key \"bad\"".toList nilPointerText = false := by
    decide
  rw [As_nilPointer_eq]
  simp only [engineFailure_match, hc, Bool.false_eq_true, if_false]

/-! ## The claims -/

/-- C1: on the error text `template: T: executing "E" at <P>: M`, where `T`, `E`, `P`
and `M` hold no double quote, no `>` and no line feed, `As` with an
`*ErrTemplateExecError` target returns true and writes `Template = T`,
`Executing = E`, `At = P` and `ErrText = M` (with `Err` and `vars` of the error). -/
theorem As_exec_extracts_fields (T E P M : Str) (hT : PlainField T) (hE : PlainField E)
    (hP : PlainField P) (hM : PlainField M) (e : ErrRenderError)
    (he : e.err = "template: ".toList ++ T ++ ": executing \"".toList ++ E ++ "\" at <".toList
      ++ P ++ ">: ".toList ++ M)
    (t : ErrTemplateExecError) :
    e.As (.exec t) = (true, .exec
      { Err := e.err, Template := T, Executing := E, At := P, ErrText := M, vars := e.vars }) := by
  have h := FindStringSubmatch_plain T E P M hT hE hP hM
  simp only [litTemplate, litExecuting, litAt, litErr] at h
  simp only [ErrRenderError.As, he, h, fillTarget]

/-- The text of C1 at `T = "T"`, `E = "E"`, `P = ".a.b"`, `M = "some error"`. -/
theorem As_exec_extracts_fields_witness :
    (PlainField "T".toList ∧ PlainField "E".toList ∧ PlainField ".a.b".toList
      ∧ PlainField "some error".toList) ∧
    ∀ t : ErrTemplateExecError,
      (ErrRenderError.mk "template: T: executing \"E\" at <.a.b>: some error".toList .nil).As
        (.exec t) = (true, .exec
          { Err := "template: T: executing \"E\" at <.a.b>: some error".toList,
            Template := "T".toList, Executing := "E".toList, At := ".a.b".toList,
            ErrText := "some error".toList, vars := .nil }) :=
  ⟨by decide, fun t => As_exec_extracts_fields "T".toList "E".toList ".a.b".toList
    "some error".toList (by decide) (by decide) (by decide) (by decide)
    (ErrRenderError.mk "template: T: executing \"E\" at <.a.b>: some error".toList .nil) rfl t⟩

/-- C2: on the error text `template: T: executing "E" at <P>: M`, where `T`, `E`, `P`
and `M` hold no double quote, no `>` and no line feed, narrowing to
`*ErrTemplateExecError` succeeds, and narrowing to `*ErrTemplateNilPointerError`
succeeds if and only if `M` contains the text `nil pointer`. -/
theorem As_nilPointer_iff_contains (T E P M : Str) (hT : PlainField T) (hE : PlainField E)
    (hP : PlainField P) (hM : PlainField M) (e : ErrRenderError)
    (he : e.err = "template: ".toList ++ T ++ ": executing \"".toList ++ E ++ "\" at <".toList
      ++ P ++ ">: ".toList ++ M)
    (t : ErrTemplateExecError) (tn : ErrTemplateNilPointerError) :
    (e.As (.exec t)).1 = true ∧
      ((e.As (.nilPointer tn)).1 = true ↔ "nil pointer".toList <:+: M) := by
  have h := FindStringSubmatch_plain T E P M hT hE hP hM
  simp only [litTemplate, litExecuting, litAt, litErr] at h
  refine ⟨by simp only [ErrRenderError.As, he, h], ?_⟩
  rw [As_nilPointer_fst, he, h, ← Contains_iff]
  simp [nilPointerText]

/-- The text of C2 at a message with `nil pointer`, where both narrowings succeed, and
at the message `some error`, where the narrowing to the nil pointer kind fails. -/
theorem As_nilPointer_iff_contains_witness :
    ((∀ t tn, ((ErrRenderError.mk
        "template: T: executing \"E\" at <.a.b>: nil pointer evaluating x".toList .nil).As
          (.exec t)).1 = true ∧
      (((ErrRenderError.mk
        "template: T: executing \"E\" at <.a.b>: nil pointer evaluating x".toList .nil).As
          (.nilPointer tn)).1 = true ↔
        "nil pointer".toList <:+: "nil pointer evaluating x".toList)) ∧
      "nil pointer".toList <:+: "nil pointer evaluating x".toList) ∧
    ((∀ t tn, ((ErrRenderError.mk
        "template: T: executing \"E\" at <.a.b>: some error".toList .nil).As
          (.exec t)).1 = true ∧
      (((ErrRenderError.mk
        "template: T: executing \"E\" at <.a.b>: some error".toList .nil).As
          (.nilPointer tn)).1 = true ↔
        "nil pointer".toList <:+: "some error".toList)) ∧
      ¬ "nil pointer".toList <:+: "some error".toList) :=
  ⟨⟨fun t tn => As_nilPointer_iff_contains "T".toList "E".toList ".a.b".toList
      "nil pointer evaluating x".toList (by decide) (by decide) (by decide) (by decide)
      (ErrRenderError.mk
        "template: T: executing \"E\" at <.a.b>: nil pointer evaluating x".toList .nil) rfl t tn,
    by decide⟩,
   ⟨fun t tn => As_nilPointer_iff_contains "T".toList "E".toList ".a.b".toList
      "some error".toList (by decide) (by decide) (by decide) (by decide)
      (ErrRenderError.mk
        "template: T: executing \"E\" at <.a.b>: some error".toList .nil) rfl t tn,
    by decide⟩⟩

/-- C3: `As` with an `*ErrTemplateExecError` target returns true if and only if the
error text contains `template: T: executing "E" at <P>: ` for some `T`, `E` and `P`
without line feed, and it returns false, leaving the target as it was, in every other
case. -/
theorem As_exec_true_iff (e : ErrRenderError) (t : ErrTemplateExecError) :
    ((e.As (.exec t)).1 = true ↔
      ∃ pre T E P post, newline ∉ T ∧ newline ∉ E ∧ newline ∉ P ∧
        e.err = pre ++ "template: ".toList ++ T ++ ": executing \"".toList ++ E
          ++ "\" at <".toList ++ P ++ ">: ".toList ++ post) ∧
    ((¬ ∃ pre T E P post, newline ∉ T ∧ newline ∉ E ∧ newline ∉ P ∧
        e.err = pre ++ "template: ".toList ++ T ++ ": executing \"".toList ++ E
          ++ "\" at <".toList ++ P ++ ">: ".toList ++ post) →
      e.As (.exec t) = (false, .exec t)) := by
  have h := FindStringSubmatch_ne_none_iff e.err
  simp only [litTemplate, litExecuting, litAt, litErr] at h
  refine ⟨by rw [As_exec_fst, h], fun hn => ?_⟩
  rw [← h] at hn
  simp only [ne_eq, not_not] at hn
  simp only [ErrRenderError.As, hn]

/-- C4, as stated, fails: the key `.xyz` is at Levenshtein distance 3 (three
substitutions of cost 1) from the path `.abc`, and `didYouMean` returns the empty
string, since `DefaultOptions` charges 2 for a substitution. -/
theorem didYouMean_unit_cost_counterexample :
    ¬ (ErrTemplateExecError.didYouMean (fun _ => true)
          ⟨[], [], [], [], [], .cons "xyz".toList .scalar .nil⟩ ".abc".toList ≠ [] ↔
        ∃ key ∈ getAllKeys (.cons "xyz".toList .scalar .nil),
          levenshtein Levenshtein.defaultCost ".abc".toList key ≤ 4) := by
  decide

/-- C4, amended: `didYouMean` returns a suggestion (a non-empty text) if and only if
some flattened key is at distance at most 4 from the path, the distance being the one
`levenshtein.DistanceForStrings` computes under `DefaultOptions`: the edit distance in
which an insertion and a deletion cost 1 and a substitution costs 2. When every key is
at distance 5 or more, or the binding is empty, it returns the empty string. -/
theorem didYouMean_suggests_iff (isPrintTable : Char → Bool) (tnp : ErrTemplateExecError)
    (varName : Str) :
    (tnp.didYouMean isPrintTable varName ≠ [] ↔
      ∃ key ∈ getAllKeys tnp.vars, levenshtein substitutionTwoCost varName key ≤ 4) ∧
    (tnp.didYouMean isPrintTable varName = [] ↔
      ∀ key ∈ getAllKeys tnp.vars, 5 ≤ levenshtein substitutionTwoCost varName key) ∧
    (tnp.vars = Binding.nil → tnp.didYouMean isPrintTable varName = []) ∧
    (∀ key, DistanceForStrings varName key DefaultOptions
      = levenshtein substitutionTwoCost varName key) := by
  have hiff : tnp.didYouMean isPrintTable varName = [] ↔
      ∀ key ∈ getAllKeys tnp.vars, 5 ≤ levenshtein substitutionTwoCost varName key := by
    simp only [← DistanceForStrings_default]
    rcases didYouMean_eq_nil_or isPrintTable tnp varName with ⟨h1, h2⟩ | h
    · exact ⟨fun _ => h2, fun _ => h1⟩
    · obtain ⟨pre, key, post, h1, h2, h3, -, -⟩ := h
      constructor
      · intro h0
        rw [h2] at h0
        simp at h0
      · intro hall
        have := hall key (by simp [h1])
        omega
  refine ⟨?_, hiff, ?_, DistanceForStrings_default varName⟩
  · rw [Ne, hiff]
    simp only [not_forall, not_le, exists_prop]
    constructor
    · rintro ⟨key, hk, hd⟩; exact ⟨key, hk, by omega⟩
    · rintro ⟨key, hk, hd⟩; exact ⟨key, hk, by omega⟩
  · intro hv
    rw [hiff, hv]
    simp [getAllKeys, getKeys]

/-- C5: when `didYouMean` returns a suggestion, it names the first key, in the order
of `getAllKeys`, whose distance to the path is the least distance over all the keys:
every key before it is strictly farther, and no key is nearer. -/
theorem didYouMean_first_nearest (isPrintTable : Char → Bool) (tnp : ErrTemplateExecError)
    (varName : Str) (h : tnp.didYouMean isPrintTable varName ≠ []) :
    ∃ pre key post, getAllKeys tnp.vars = pre ++ key :: post ∧
      tnp.didYouMean isPrintTable varName
        = "\n\n Did you mean ".toList ++ Quote isPrintTable key ++ "?".toList ∧
      (∀ k ∈ getAllKeys tnp.vars, DistanceForStrings varName key DefaultOptions
        ≤ DistanceForStrings varName k DefaultOptions) ∧
      (∀ k ∈ pre, DistanceForStrings varName key DefaultOptions
        < DistanceForStrings varName k DefaultOptions) := by
  rcases didYouMean_eq_nil_or isPrintTable tnp varName with ⟨h1, -⟩ | h1
  · exact absurd h1 h
  · obtain ⟨pre, key, post, h1, h2, -, h4, h5⟩ := h1
    refine ⟨pre, key, post, h1, h2, ?_, h4⟩
    intro k hk
    rw [h1] at hk
    rcases List.mem_append.1 hk with hk | hk
    · exact le_of_lt (h4 k hk)
    · rcases List.mem_cons.1 hk with rfl | hk
      · exact le_refl _
      · exact h5 k hk

/-- C5 at the keys `.foo`, `.map.int`, `.map.bool`, `.map.string` and the path
`.map.sting`: the suggestion is `.map.string`. -/
theorem didYouMean_first_nearest_witness :
    (getAllKeys fourKeys
        = [".foo".toList, ".map.int".toList, ".map.bool".toList, ".map.string".toList] ∧
      ErrTemplateExecError.didYouMean (fun _ => true) ⟨[], [], [], [], [], fourKeys⟩
        ".map.sting".toList = "\n\n Did you mean \".map.string\"?".toList) ∧
    ∃ pre key post, getAllKeys fourKeys = pre ++ key :: post ∧
      ErrTemplateExecError.didYouMean (fun _ => true) ⟨[], [], [], [], [], fourKeys⟩
          ".map.sting".toList
        = "\n\n Did you mean ".toList ++ Quote (fun _ => true) key ++ "?".toList ∧
      (∀ k ∈ getAllKeys fourKeys, DistanceForStrings ".map.sting".toList key DefaultOptions
        ≤ DistanceForStrings ".map.sting".toList k DefaultOptions) ∧
      (∀ k ∈ pre, DistanceForStrings ".map.sting".toList key DefaultOptions
        < DistanceForStrings ".map.sting".toList k DefaultOptions) :=
  ⟨by decide, didYouMean_first_nearest (fun _ => true) ⟨[], [], [], [], [], fourKeys⟩
    ".map.sting".toList (by decide)⟩

/-- C6, as stated, fails at its own example: with `At = ".map.string.xyzzy"`,
`Executing = "xyzzy"` and the key `.map.string` in the binding, the engine suggests
`.map.string` for the stripped path `.map.string`, and the message holds no
`Did you mean ".map.string"?`: the engine is asked about the full `At`. -/
theorem NilPointerError_suggestion_counterexample :
    ErrTemplateExecError.didYouMean (fun _ => true)
        ⟨[], "T".toList, "xyzzy".toList, ".map.string.xyzzy".toList, [], mapString⟩
        (TrimSuffix ".map.string.xyzzy".toList ".xyzzy".toList)
      = "\n\n Did you mean \".map.string\"?".toList ∧
    ¬ "Did you mean \".map.string\"?".toList <:+:
      ErrTemplateNilPointerError.Error (fun _ => true)
        ⟨⟨[], "T".toList, "xyzzy".toList, ".map.string.xyzzy".toList, [], mapString⟩⟩ := by
  decide

/-- C6, amended: the suggestion shown in the message of `ErrTemplateNilPointerError`
is the result of `didYouMean` for the full access path `At`; the path without the
trailing `.<Executing>` is shown after `evaluating` only. So the suggestion is empty
when every flattened key is at distance 5 or more from `At` (as with
`At = ".map.string.xyzzy"` and the key `.map.string`), and names a key nearest to
`At` otherwise. -/
theorem NilPointerError_suggestion_for_At (isPrintTable : Char → Bool)
    (tnp : ErrTemplateNilPointerError) :
    tnp.Error isPrintTable
      = "nil pointer evaluating ".toList
        ++ Quote isPrintTable (TrimSuffix tnp.At (".".toList ++ tnp.Executing))
        ++ " in ".toList ++ Quote isPrintTable tnp.At ++ ".(".toList ++ tnp.Template
        ++ ").".toList ++ tnp.didYouMean isPrintTable tnp.At
        ++ tnp.validValues isPrintTable ∧
    ((tnp.didYouMean isPrintTable tnp.At = [] ∧
        ∀ k ∈ getAllKeys tnp.vars, 5 ≤ DistanceForStrings tnp.At k DefaultOptions) ∨
      ∃ key ∈ getAllKeys tnp.vars,
        tnp.didYouMean isPrintTable tnp.At
          = "\n\n Did you mean ".toList ++ Quote isPrintTable key ++ "?".toList ∧
        DistanceForStrings tnp.At key DefaultOptions ≤ 4 ∧
        ∀ k ∈ getAllKeys tnp.vars, DistanceForStrings tnp.At key DefaultOptions
          ≤ DistanceForStrings tnp.At k DefaultOptions) ∧
    ErrTemplateExecError.didYouMean isPrintTable
        ⟨[], "T".toList, "xyzzy".toList, ".map.string.xyzzy".toList, [], mapString⟩
        ".map.string.xyzzy".toList = [] := by
  refine ⟨rfl, ?_, ?_⟩
  swap
  · have h : (didYouMeanLoop ".map.string.xyzzy".toList (getAllKeys mapString)).2 = [] := by
      decide
    simp only [ErrTemplateExecError.didYouMean, h]
    simp
  rcases didYouMean_eq_nil_or isPrintTable tnp.toErrTemplateExecError tnp.At with h | h
  · exact Or.inl h
  · right
    obtain ⟨pre, key, post, h1, h2, h3, h4, h5⟩ := h
    refine ⟨key, by simp [h1], h2, by omega, ?_⟩
    intro k hk
    rw [h1] at hk
    rcases List.mem_append.1 hk with hk | hk
    · exact le_of_lt (h4 k hk)
    · rcases List.mem_cons.1 hk with rfl | hk
      · exact le_refl _
      · exact h5 k hk

/-- C7, as stated, fails: with `At = ".a.b"`, `Executing = "b"` and `Template = "T"`
the message does not begin with `nil pointer evaluating ".a" in ".a.b".(T).b`; the
format has no verb for `Executing`, and the text behind `(T).` is that of
`didYouMean` and `validValues`. -/
theorem NilPointerError_head_counterexample :
    ¬ "nil pointer evaluating \".a\" in \".a.b\".(T).b".toList <+:
      ErrTemplateNilPointerError.Error (fun _ => true)
        ⟨⟨[], "T".toList, "b".toList, ".a.b".toList, [], .nil⟩⟩ := by
  decide

/-- C7, amended: when `At` is printable ASCII without double quote and backslash, the
message begins with exactly `nil pointer evaluating "<nilVarName>" in "<At>".(<Template>).`
(`Executing` is not printed), where `nilVarName` is `At` without the trailing
`.<Executing>` when `At` ends with it and `At` itself otherwise, and the text of the
suggestion and of the valid values follows immediately. -/
theorem NilPointerError_head (isPrintTable : Char → Bool) (tnp : ErrTemplateNilPointerError)
    (hAt : PlainASCII tnp.At) :
    (∀ x, tnp.At = x ++ ".".toList ++ tnp.Executing →
      tnp.Error isPrintTable = "nil pointer evaluating \"".toList ++ x ++ "\" in \"".toList
        ++ tnp.At ++ "\".(".toList ++ tnp.Template ++ ").".toList
        ++ (tnp.didYouMean isPrintTable tnp.At ++ tnp.validValues isPrintTable)) ∧
    (¬ (".".toList ++ tnp.Executing) <:+ tnp.At →
      tnp.Error isPrintTable = "nil pointer evaluating \"".toList ++ tnp.At
        ++ "\" in \"".toList ++ tnp.At ++ "\".(".toList ++ tnp.Template ++ ").".toList
        ++ (tnp.didYouMean isPrintTable tnp.At ++ tnp.validValues isPrintTable)) := by
  have hq := Quote_plain isPrintTable tnp.At hAt
  have hn := Quote_plain isPrintTable _ (PlainASCII_TrimSuffix tnp.At ('.' :: tnp.Executing) hAt)
  constructor
  · intro x hx
    have ht : TrimSuffix tnp.At ('.' :: tnp.Executing) = x := by
      rw [hx]; simpa using TrimSuffix_append x ('.' :: tnp.Executing)
    rw [ht] at hn
    simp only [ErrTemplateNilPointerError.Error, ht, hq, hn]
    simp [dquote]
  · intro hx
    have ht : TrimSuffix tnp.At ('.' :: tnp.Executing) = tnp.At :=
      TrimSuffix_of_not_suffix _ _ (by simpa using hx)
    simp only [ErrTemplateNilPointerError.Error, ht, hq]
    simp [dquote]

/-- C7, amended, at `At = ".a.b"`, `Executing = "b"`, `Template = "T"` and the empty
binding: the nil variable is `.a`. -/
theorem NilPointerError_head_witness :
    PlainASCII ".a.b".toList ∧
    ErrTemplateNilPointerError.Error (fun _ => true)
        ⟨⟨[], "T".toList, "b".toList, ".a.b".toList, [], .nil⟩⟩
      = "nil pointer evaluating \".a\" in \".a.b\".(T).".toList
        ++ (ErrTemplateExecError.didYouMean (fun _ => true)
              ⟨[], "T".toList, "b".toList, ".a.b".toList, [], .nil⟩ ".a.b".toList
          ++ ErrTemplateExecError.validValues (fun _ => true)
              ⟨[], "T".toList, "b".toList, ".a.b".toList, [], .nil⟩) :=
  ⟨by decide, (NilPointerError_head (fun _ => true)
    ⟨⟨[], "T".toList, "b".toList, ".a.b".toList, [], .nil⟩⟩ (by decide)).1 ".a".toList rfl⟩

/-- C8, as stated, fails: for the key `a"b` the line of the valid values is
`     ".a\"b"`, the key as `%q` writes it, and not the key between double quotes. -/
theorem NilPointerError_valid_values_counterexample :
    ErrTemplateExecError.validValues (fun _ => true) ⟨[], [], [], [], [], quoteKey⟩
      = "\n\n Valid values are:\n     \".a\\\"b\"".toList ∧
    ¬ ("\n\n Valid values are:\n".toList ++ Join ((getAllKeys quoteKey).map
        (fun k => "     ".toList ++ "\"".toList ++ k ++ "\"".toList)) "\n".toList) <:+
      ErrTemplateNilPointerError.Error (fun _ => true) ⟨⟨[], [], [], [], [], quoteKey⟩⟩ := by
  decide

/-- C8, amended: the message of `ErrTemplateNilPointerError` ends with the text
`\n\n Valid values are:\n` followed by one line for each flattened key of the binding,
the lines joined by single line feeds (no line for the empty binding); a line is five
spaces followed by the key as `%q` writes it, which holds no line feed and is the key
between double quotes when the key is printable ASCII without double quote and
backslash. A block `\n\n Did you mean <key as %q writes it>?` stands immediately
before that text if and only if `didYouMean` returned a suggestion. -/
theorem NilPointerError_valid_values (isPrintTable : Char → Bool)
    (tnp : ErrTemplateNilPointerError) :
    ∃ pre, tnp.Error isPrintTable
        = pre ++ ("\n\n Valid values are:\n".toList ++ Join ((getAllKeys tnp.vars).map
            (fun k => "     ".toList ++ Quote isPrintTable k)) "\n".toList) ∧
      (∀ k : Str, newline ∉ "     ".toList ++ Quote isPrintTable k) ∧
      (∀ k : Str, PlainASCII k → Quote isPrintTable k = "\"".toList ++ k ++ "\"".toList) ∧
      ((∃ key, ("\n\n Did you mean ".toList ++ Quote isPrintTable key ++ "?".toList) <:+ pre) ↔
        tnp.didYouMean isPrintTable tnp.At ≠ []) := by
  refine ⟨"nil pointer evaluating ".toList
      ++ Quote isPrintTable (TrimSuffix tnp.At ('.' :: tnp.Executing))
      ++ " in ".toList ++ Quote isPrintTable tnp.At ++ ".(".toList ++ tnp.Template
      ++ ").".toList ++ tnp.didYouMean isPrintTable tnp.At, ?_, ?_, ?_, ?_⟩
  · simp only [ErrTemplateNilPointerError.Error, ErrTemplateExecError.validValues,
      List.append_assoc]
  · intro k
    simp only [List.mem_append, not_or]
    exact ⟨by decide, Quote_no_newline isPrintTable k⟩
  · intro k hk
    rw [Quote_plain isPrintTable k hk]
    simp [dquote]
  · rcases didYouMean_eq_nil_or isPrintTable tnp.toErrTemplateExecError tnp.At with h | h
    · rw [h.1]
      simp only [ne_eq, not_true_eq_false, iff_false, not_exists, List.append_nil]
      rintro key ⟨z, hz⟩
      have hz1 : (z ++ ("\n\n Did you mean ".toList ++ Quote isPrintTable key)) ++ ['?']
          = ("nil pointer evaluating ".toList
            ++ Quote isPrintTable (TrimSuffix tnp.At ('.' :: tnp.Executing))
            ++ " in ".toList ++ Quote isPrintTable tnp.At ++ ".(".toList ++ tnp.Template
            ++ [')']) ++ ['.'] := by
        simpa using hz
      have := (List.append_inj' hz1 rfl).2
      exact absurd this (by decide)
    · obtain ⟨pre, key, post, -, h2, -⟩ := h
      have hne : tnp.didYouMean isPrintTable tnp.At ≠ [] := by
        rw [h2]; simp
      simp only [hne, ne_eq, not_false_eq_true, iff_true]
      exact ⟨key, by rw [h2]; exact List.suffix_append _ _⟩

/-- C9: when `At` is printable ASCII without double quote and backslash,
`ErrTemplateExecError.Error` is exactly
`error rendering "<nilVarName>" in "<At>" (<Template>): <ErrText>`, where `nilVarName`
is `At` without the trailing `.<Executing>` when `At` ends with it, and `At` itself
otherwise. -/
theorem ExecError_message (isPrintTable : Char → Bool) (tnp : ErrTemplateExecError)
    (hAt : PlainASCII tnp.At) :
    (∀ x, tnp.At = x ++ ".".toList ++ tnp.Executing →
      tnp.Error isPrintTable = "error rendering \"".toList ++ x ++ "\" in \"".toList ++ tnp.At
        ++ "\" (".toList ++ tnp.Template ++ "): ".toList ++ tnp.ErrText) ∧
    (¬ (".".toList ++ tnp.Executing) <:+ tnp.At →
      tnp.Error isPrintTable = "error rendering \"".toList ++ tnp.At ++ "\" in \"".toList
        ++ tnp.At ++ "\" (".toList ++ tnp.Template ++ "): ".toList ++ tnp.ErrText) := by
  have hq := Quote_plain isPrintTable tnp.At hAt
  have hn := Quote_plain isPrintTable _ (PlainASCII_TrimSuffix tnp.At ('.' :: tnp.Executing) hAt)
  constructor
  · intro x hx
    have ht : TrimSuffix tnp.At ('.' :: tnp.Executing) = x := by
      rw [hx]; simpa using TrimSuffix_append x ('.' :: tnp.Executing)
    rw [ht] at hn
    simp only [ErrTemplateExecError.Error, ht, hq, hn]
    simp [dquote]
  · intro hx
    have ht : TrimSuffix tnp.At ('.' :: tnp.Executing) = tnp.At :=
      TrimSuffix_of_not_suffix _ _ (by simpa using hx)
    simp only [ErrTemplateExecError.Error, ht, hq]
    simp [dquote]

/-- C9 at `At = ".a.b"`, `Executing = "b"`, `Template = "T"`, `ErrText = "some error"`. -/
theorem ExecError_message_witness :
    PlainASCII ".a.b".toList ∧
    ErrTemplateExecError.Error (fun _ => true)
        ⟨[], "T".toList, "b".toList, ".a.b".toList, "some error".toList, .nil⟩
      = "error rendering \".a\" in \".a.b\" (T): some error".toList :=
  ⟨by decide, (ExecError_message (fun _ => true)
    ⟨[], "T".toList, "b".toList, ".a.b".toList, "some error".toList, .nil⟩ (by decide)).1
    ".a".toList rfl⟩

/-- C10: `getAllKeys` is total on bindings (finite trees) and returns one entry for
every key at every nesting depth, an entry being `.` followed by the key names from
the root joined by `.`; the number of entries is the number of keys in all nested
maps, every entry starts with `.`, and the result is empty exactly for the empty
binding. -/
theorem getAllKeys_one_entry_per_key (inMap : Binding) :
    getAllKeys inMap = (keyPaths inMap).map (fun p => '.' :: Join p ".".toList) ∧
    (getAllKeys inMap).length = countKeys inMap ∧
    (∀ key ∈ getAllKeys inMap, ∃ rest, key = '.' :: rest) ∧
    (getAllKeys inMap = [] ↔ inMap = Binding.nil) := by
  refine ⟨getAllKeys_eq inMap, ?_, ?_, ?_⟩
  · rw [getAllKeys_eq, List.length_map, keyPaths_length]
  · intro key h
    rw [getAllKeys_eq, List.mem_map] at h
    obtain ⟨p, -, rfl⟩ := h
    exact ⟨_, rfl⟩
  · rw [getAllKeys_eq]
    cases inMap with
    | nil => simp [keyPaths]
    | cons k v rest => simp [keyPaths]

/-- C11: on a text `pre`, line feed, `template: T: executing "E" at <P>: M`, line feed,
`post`, where `T`, `E`, `P` and `M` hold no double quote, no `>` and no line feed and
`pre` holds no match of the pattern, `As` with an `*ErrTemplateExecError` target returns
true and writes `Template = T`, `Executing = E`, `At = P` and `ErrText = M`, whatever
`post` is. -/
theorem As_exec_multiline (T E P M pre post : Str) (hT : PlainField T) (hE : PlainField E)
    (hP : PlainField P) (hM : PlainField M)
    (hpre : ¬ ∃ a T1 E1 P1 b, newline ∉ T1 ∧ newline ∉ E1 ∧ newline ∉ P1 ∧
      pre = a ++ "template: ".toList ++ T1 ++ ": executing \"".toList ++ E1
        ++ "\" at <".toList ++ P1 ++ ">: ".toList ++ b)
    (e : ErrRenderError)
    (he : e.err = pre ++ "\n".toList
      ++ ("template: ".toList ++ T ++ ": executing \"".toList ++ E ++ "\" at <".toList
        ++ P ++ ">: ".toList ++ M)
      ++ "\n".toList ++ post)
    (t : ErrTemplateExecError) :
    e.As (.exec t) = (true, .exec
      { Err := e.err, Template := T, Executing := E, At := P, ErrText := M, vars := e.vars }) := by
  have hnone : FindStringSubmatch pre = none := by
    by_contra hne
    have h1 := (FindStringSubmatch_ne_none_iff pre).1 hne
    simp only [litTemplate, litExecuting, litAt, litErr] at h1
    exact hpre h1
  have h := FindStringSubmatch_multiline T E P M pre post hT hE hP hM hnone
  have hnl : "\n".toList = [newline] := by decide
  simp only [litTemplate, litExecuting, litAt, litErr] at h
  rw [hnl] at he
  have he1 : e.err = pre ++ [newline]
      ++ ("template: ".toList ++ T ++ ": executing \"".toList ++ E ++ "\" at <".toList
        ++ P ++ ">: ".toList ++ M) ++ newline :: post := by
    rw [he]; simp
  simp only [ErrRenderError.As, he1, h, fillTarget]

/-- C11 at `pre = "some text"`, the line of C1 and `post = "more >: text"`. -/
theorem As_exec_multiline_witness :
    (PlainField "T".toList ∧ PlainField "E".toList ∧ PlainField ".a.b".toList
      ∧ PlainField "some error".toList) ∧
    ∀ t : ErrTemplateExecError,
      (ErrRenderError.mk
          "some text\ntemplate: T: executing \"E\" at <.a.b>: some error\nmore >: text".toList
          .nil).As (.exec t)
        = (true, .exec
          { Err :=
              "some text\ntemplate: T: executing \"E\" at <.a.b>: some error\nmore >: text".toList,
            Template := "T".toList, Executing := "E".toList, At := ".a.b".toList,
            ErrText := "some error".toList, vars := .nil }) :=
  ⟨by decide, fun t => As_exec_multiline "T".toList "E".toList ".a.b".toList
    "some error".toList "some text".toList "more >: text".toList
    (by decide) (by decide) (by decide) (by decide)
    (no_match_of_FindStringSubmatch _ (by decide))
    (ErrRenderError.mk
      "some text\ntemplate: T: executing \"E\" at <.a.b>: some error\nmore >: text".toList .nil)
    rfl t⟩

/-- C12, the failing input: when `copystructure.Copy` returns `nil` and an error,
`NewErrRenderError` does not return an `ErrRenderError`; the type assertion on the
`nil` value panics. -/
theorem NewErrRenderError_failed_copy :
    NewErrRenderError (fun _ _ => none) callerHeap "boom".toList 0 = none :=
  rfl

/-- C13, the failing input: the failure that the engine reports in the test, wrapped
by `NewErrRenderError` with the binding of the test, does not narrow to
`*ErrTemplateNilPointerError`: group `Err` is `map has no entry for key "bad"`, which
holds no `nil pointer`, so `As` returns false and leaves the target; the narrowing to
`*ErrTemplateExecError` succeeds. The test expects the narrowing to the nil pointer
kind. -/
theorem test_engine_failure_not_narrowed :
    ∃ h1 e, NewErrRenderError (Copy 2) testHeap engineFailure 0 = some (h1, e) ∧
      e.load h1 2 = some (ErrRenderError.mk engineFailure testBinding) ∧
      (ErrRenderError.mk engineFailure testBinding).As
          (.nilPointer ⟨⟨[], [], [], [], [], .nil⟩⟩)
        = (false, .nilPointer ⟨⟨[], [], [], [], [], .nil⟩⟩) ∧
      (ErrRenderError.mk engineFailure testBinding).As (.exec ⟨[], [], [], [], [], .nil⟩)
        = (true, .exec
          { Err := engineFailure, Template := "test:1:12".toList, Executing := "test".toList,
            At := ".bad.string".toList,
            ErrText := "map has no entry for key \"bad\"".toList, vars := testBinding }) := by
  refine ⟨_, _, rfl, rfl, ?_, ?_⟩
  · exact engineFailure_not_nil_pointer testBinding _
  · rw [As_exec_eq]
    simp only [engineFailure_match, fillTarget]

/-- C14, as stated, fails: `.map` is a flattened key of the binding of the test, next to
the four keys of the claim. -/
theorem getAllKeys_test_counterexample :
    ¬ ∀ k, k ∈ getAllKeys testBinding ↔
      k ∈ [".foo".toList, ".map.int".toList, ".map.bool".toList, ".map.string".toList] := by
  intro h
  exact absurd ((h ".map".toList).1 (by decide)) (by decide)

/-- C14, amended: in every enumeration order the flattened keys of the binding of the
test are exactly five: `.foo`, `.map`, `.map.int`, `.map.bool` and `.map.string`. -/
theorem getAllKeys_test_five (b : Binding) (h : Binding.Reorder testBinding b) :
    (getAllKeys b).Perm
      [".foo".toList, ".map".toList, ".map.int".toList, ".map.bool".toList,
        ".map.string".toList] := by
  have h0 : getAllKeys testBinding
      = [".foo".toList, ".map".toList, ".map.int".toList, ".map.bool".toList,
        ".map.string".toList] := by decide
  rw [← h0]
  exact (getAllKeys_perm h).symm

/-- C14, amended, at the order in which the test writes the binding. -/
theorem getAllKeys_test_five_witness :
    (getAllKeys testBinding).Perm
      [".foo".toList, ".map".toList, ".map.int".toList, ".map.bool".toList,
        ".map.string".toList] :=
  getAllKeys_test_five testBinding (.refl _)

/-- C15: whenever narrowing to `*ErrTemplateNilPointerError` succeeds, narrowing the
same render error to `*ErrTemplateExecError` succeeds, and the struct embedded in the
nil pointer target is the exec target: the same `Err`, `Template`, `Executing`, `At`,
`ErrText` and `vars`. -/
theorem As_nilPointer_inherits_exec (e : ErrRenderError) (tn tn1 : ErrTemplateNilPointerError)
    (h : e.As (.nilPointer tn) = (true, .nilPointer tn1)) (t : ErrTemplateExecError) :
    e.As (.exec t) = (true, .exec tn1.toErrTemplateExecError) ∧
    tn1.Err = e.err ∧ tn1.vars = e.vars := by
  rw [As_nilPointer_eq] at h
  rw [As_exec_eq]
  cases hm : FindStringSubmatch e.err with
  | none => simp [hm] at h
  | some m =>
    by_cases hc : Contains m.Err nilPointerText = true
    · simp only [hm, hc, if_true, Prod.mk.injEq, Target.nilPointer.injEq, true_and] at h
      subst h
      exact ⟨rfl, rfl, rfl⟩
    · simp [hm, hc] at h

/-- C15 at the error text `template: T: executing "E" at <.a.b>: nil pointer evaluating x`. -/
theorem As_nilPointer_inherits_exec_witness :
    (ErrRenderError.mk
          "template: T: executing \"E\" at <.a.b>: nil pointer evaluating x".toList .nil).As
        (.nilPointer ⟨⟨[], [], [], [], [], .nil⟩⟩)
      = (true, .nilPointer
        ⟨{ Err := "template: T: executing \"E\" at <.a.b>: nil pointer evaluating x".toList,
           Template := "T".toList, Executing := "E".toList, At := ".a.b".toList,
           ErrText := "nil pointer evaluating x".toList, vars := .nil }⟩) ∧
    (ErrRenderError.mk
          "template: T: executing \"E\" at <.a.b>: nil pointer evaluating x".toList .nil).As
        (.exec ⟨[], [], [], [], [], .nil⟩)
      = (true, .exec
        { Err := "template: T: executing \"E\" at <.a.b>: nil pointer evaluating x".toList,
          Template := "T".toList, Executing := "E".toList, At := ".a.b".toList,
          ErrText := "nil pointer evaluating x".toList, vars := .nil }) :=
  have h : (ErrRenderError.mk
        "template: T: executing \"E\" at <.a.b>: nil pointer evaluating x".toList .nil).As
      (.nilPointer ⟨⟨[], [], [], [], [], .nil⟩⟩)
      = (true, .nilPointer
        ⟨{ Err := "template: T: executing \"E\" at <.a.b>: nil pointer evaluating x".toList,
           Template := "T".toList, Executing := "E".toList, At := ".a.b".toList,
           ErrText := "nil pointer evaluating x".toList, vars := .nil }⟩) := by
    rw [As_nilPointer_eq]
    have h : FindStringSubmatch
        "template: T: executing \"E\" at <.a.b>: nil pointer evaluating x".toList
        = some ⟨"T".toList, "E".toList, ".a.b".toList, "nil pointer evaluating x".toList⟩ := by
      decide
    have hc : Contains "nil pointer evaluating x".toList nilPointerText = true := by decide
    simp only [h, hc, if_true, fillTarget]
  ⟨h, (As_nilPointer_inherits_exec _ _ _ h ⟨[], [], [], [], [], .nil⟩).1⟩

/-- C16: narrowing is repeatable and independent of the order of the calls. After any
sequence of earlier calls of `As` the render error is unchanged, a further call returns
the same boolean as a first call and, on success, writes the same target; and the
outcome of a call does not depend on what the target held before. -/
theorem narrowing_repeatable (s : Narrowing) (ks : List Kind) (k : Kind) :
    (s.run ks).e = s.e ∧
    ((s.run ks).call k).1 = (s.call k).1 ∧
    (((s.run ks).call k).1 = true →
      (k = Kind.exec → ((s.run ks).call k).2.exec = (s.call k).2.exec) ∧
      (k = Kind.nilPointer → ((s.run ks).call k).2.nilPointer = (s.call k).2.nilPointer)) ∧
    (∀ t t1 : ErrTemplateExecError,
      (s.e.As (.exec t)).1 = (s.e.As (.exec t1)).1 ∧
      ((s.e.As (.exec t)).1 = true → (s.e.As (.exec t)).2 = (s.e.As (.exec t1)).2)) ∧
    (∀ t t1 : ErrTemplateNilPointerError,
      (s.e.As (.nilPointer t)).1 = (s.e.As (.nilPointer t1)).1 ∧
      ((s.e.As (.nilPointer t)).1 = true →
        (s.e.As (.nilPointer t)).2 = (s.e.As (.nilPointer t1)).2)) := by
  have hc := Narrowing_call_congr (s.run ks) s (Narrowing_run_e s ks) k
  refine ⟨Narrowing_run_e s ks, hc.1, hc.2, ?_, ?_⟩
  · intro t t1
    simp only [As_exec_eq]
    cases FindStringSubmatch s.e.err <;> simp
  · intro t t1
    simp only [As_nilPointer_eq]
    cases FindStringSubmatch s.e.err with
    | none => simp
    | some m => by_cases hc : Contains m.Err nilPointerText = true <;> simp [hc]

/-- C17: `NewErrRenderError` on a binding that the heap holds returns a render error
whose snapshot is made of maps added to the heap, the maps of the caller unchanged.
In every later heap that keeps the added maps, whatever the caller has done to its own
maps and whatever maps it has added, the snapshot reads as the binding at the time of
the call, so the keys, the suggestion and the valid values computed from it are the
same. -/
theorem snapshot_independent_of_caller (fuel : Nat) (h : Heap) (err : Str) (vars : Nat)
    (b : Binding) (hread : readBinding h fuel vars = some b) :
    ∃ h1 e, NewErrRenderError (Copy fuel) h err vars = some (h1, e) ∧
      (∃ ext, h1 = h ++ ext) ∧
      ∀ h2 : Heap, (∀ x, h.length ≤ x → x < h1.length → h2[x]? = h1[x]?) →
        e.load h2 fuel = some (ErrRenderError.mk err b) := by
  obtain ⟨h1, a1, hc, hext, hrd⟩ := copyMap_spec fuel vars h b hread
  refine ⟨h1, { err := err, vars := a1 }, by simp [NewErrRenderError, Copy, hc], hext,
    fun h2 hag => ?_⟩
  simp [ErrRenderErrorRef.load, hrd h2 hag]

/-- C17 at the heap `callerHeap`: the snapshot is the map at address 3, and after the
caller has changed its maps it still reads as the binding at the time of the call. -/
theorem snapshot_independent_of_caller_witness :
    NewErrRenderError (Copy 2) callerHeap "boom".toList 0
      = some (callerHeap ++ [[("int".toList, .scalar)],
          [("foo".toList, .scalar), ("map".toList, .ref 2)]],
        { err := "boom".toList, vars := 3 }) ∧
    ErrRenderErrorRef.load { err := "boom".toList, vars := 3 } callerHeapMutated 2
      = some (ErrRenderError.mk "boom".toList
          (.cons "foo".toList .scalar
            (.cons "map".toList (.map (.cons "int".toList .scalar .nil)) .nil))) ∧
    ∃ h1 e, NewErrRenderError (Copy 2) callerHeap "boom".toList 0 = some (h1, e) ∧
      (∃ ext, h1 = callerHeap ++ ext) ∧
      ∀ h2 : Heap, (∀ x, callerHeap.length ≤ x → x < h1.length → h2[x]? = h1[x]?) →
        e.load h2 2 = some (ErrRenderError.mk "boom".toList
          (.cons "foo".toList .scalar
            (.cons "map".toList (.map (.cons "int".toList .scalar .nil)) .nil))) :=
  ⟨rfl, rfl, snapshot_independent_of_caller 2 callerHeap "boom".toList 0
    (.cons "foo".toList .scalar
      (.cons "map".toList (.map (.cons "int".toList .scalar .nil)) .nil)) rfl⟩

/-- C18: whenever `As` returns false (no match of the pattern, a match without
`nil pointer` for the nil pointer kind, or a target of another type), the target is
left as it was. -/
theorem As_false_leaves_target (e : ErrRenderError) (target : Target)
    (h : (e.As target).1 = false) : (e.As target).2 = target := by
  cases target with
  | exec t =>
    rw [As_exec_eq] at h ⊢
    cases hm : FindStringSubmatch e.err with
    | none => rfl
    | some m => simp [hm] at h
  | nilPointer t =>
    rw [As_nilPointer_eq] at h ⊢
    cases hm : FindStringSubmatch e.err with
    | none => rfl
    | some m =>
      by_cases hc : Contains m.Err nilPointerText = true
      · simp [hm, hc] at h
      · simp [hm, hc]
  | other => rfl

/-- C18 at a text without match, and at a match without `nil pointer` for the nil
pointer kind. -/
theorem As_false_leaves_target_witness :
    (∀ t : ErrTemplateExecError,
      ((ErrRenderError.mk "boom".toList .nil).As (.exec t)).2 = .exec t) ∧
    (∀ tn : ErrTemplateNilPointerError,
      ((ErrRenderError.mk "template: T: executing \"E\" at <.a.b>: some error".toList .nil).As
        (.nilPointer tn)).2 = .nilPointer tn) :=
  ⟨fun t => As_false_leaves_target (ErrRenderError.mk "boom".toList .nil) (.exec t) (by
      rw [As_exec_eq]
      have h : FindStringSubmatch "boom".toList = none := by decide
      simp only [h]),
   fun tn => As_false_leaves_target
    (ErrRenderError.mk "template: T: executing \"E\" at <.a.b>: some error".toList .nil)
    (.nilPointer tn) (by
      rw [As_nilPointer_eq]
      have h : FindStringSubmatch "template: T: executing \"E\" at <.a.b>: some error".toList
          = some ⟨"T".toList, "E".toList, ".a.b".toList, "some error".toList⟩ := by decide
      have hc : Contains "some error".toList nilPointerText = false := by decide
      simp only [h, hc, Bool.false_eq_true, if_false])⟩

/-- C19: for two enumeration orders of the same binding the two results of `getAllKeys`
are permutations of each other, `didYouMean` returns a suggestion under one order if
and only if it does under the other, the two suggested keys (the variable `out` of the
loop) are at the same distance from the path, and they are the same key, hence the two
texts are the same, when no other key is at that least distance. -/
theorem didYouMean_order_insensitive (isPrintTable : Char → Bool)
    (tnp tnp1 : ErrTemplateExecError) (varName : Str)
    (h : Binding.Reorder tnp.vars tnp1.vars) :
    (getAllKeys tnp.vars).Perm (getAllKeys tnp1.vars) ∧
    (tnp.didYouMean isPrintTable varName ≠ [] ↔ tnp1.didYouMean isPrintTable varName ≠ []) ∧
    DistanceForStrings varName (didYouMeanLoop varName (getAllKeys tnp.vars)).2 DefaultOptions
      = DistanceForStrings varName (didYouMeanLoop varName (getAllKeys tnp1.vars)).2
          DefaultOptions ∧
    ((∀ k ∈ getAllKeys tnp.vars, DistanceForStrings varName k DefaultOptions
        = DistanceForStrings varName (didYouMeanLoop varName (getAllKeys tnp.vars)).2
            DefaultOptions →
        k = (didYouMeanLoop varName (getAllKeys tnp.vars)).2) →
      (didYouMeanLoop varName (getAllKeys tnp1.vars)).2
          = (didYouMeanLoop varName (getAllKeys tnp.vars)).2 ∧
        tnp1.didYouMean isPrintTable varName = tnp.didYouMean isPrintTable varName) := by
  have hperm := getAllKeys_perm h
  have hnil : [] ∉ getAllKeys tnp.vars := fun hm => getAllKeys_mem_ne_nil _ _ hm rfl
  obtain ⟨h1, h2, h3⟩ := didYouMeanLoop_perm varName _ _ hperm hnil
  refine ⟨hperm, ?_, h2, fun hu => ⟨h3 hu, ?_⟩⟩
  · rw [didYouMean_ne_nil_iff_out, didYouMean_ne_nil_iff_out, Ne, Ne, h1]
  · exact didYouMean_eq_of_out isPrintTable tnp1 tnp varName (h3 hu)

/-- C19 at the binding of the test, two orders of its nested map and the path
`.bad.string`: the suggestion is the same. -/
theorem didYouMean_order_insensitive_witness :
    (getAllKeys testBinding).Perm (getAllKeys testBindingReordered) ∧
    ErrTemplateExecError.didYouMean (fun _ => true) ⟨[], [], [], [], [], testBindingReordered⟩
        ".bad.string".toList
      = ErrTemplateExecError.didYouMean (fun _ => true) ⟨[], [], [], [], [], testBinding⟩
        ".bad.string".toList :=
  have h := didYouMean_order_insensitive (fun _ => true)
    ⟨[], [], [], [], [], testBinding⟩ ⟨[], [], [], [], [], testBindingReordered⟩
    ".bad.string".toList testBinding_reordered
  ⟨h.1, (h.2.2.2 (by decide)).2⟩

/-- C20: the groups are taken greedily. When `As` with an `*ErrTemplateExecError`
target succeeds, the error text is `pre`, `template: `, `Template`, `: executing "`,
`Executing`, `" at <`, `At`, `>: `, `ErrText` and the rest of the text from the end of
the line on; `ErrText` holds no `>: `, so `At` runs up to the last `>: ` of the line;
and no other reading of the text from the same start has a longer `Template`. -/
theorem As_exec_greedy (e : ErrRenderError) (t t1 : ErrTemplateExecError)
    (h : e.As (.exec t) = (true, .exec t1)) :
    ∃ pre post, e.err = pre ++ "template: ".toList ++ t1.Template ++ ": executing \"".toList
        ++ t1.Executing ++ "\" at <".toList ++ t1.At ++ ">: ".toList ++ t1.ErrText ++ post ∧
      (post = [] ∨ ∃ p, post = "\n".toList ++ p) ∧
      newline ∉ t1.ErrText ∧
      ¬ ">: ".toList <:+: t1.ErrText ∧
      (∀ T1 E1 P1 b, newline ∉ T1 → newline ∉ E1 → newline ∉ P1 →
        e.err = pre ++ "template: ".toList ++ T1 ++ ": executing \"".toList ++ E1
          ++ "\" at <".toList ++ P1 ++ ">: ".toList ++ b →
        T1.length ≤ t1.Template.length) := by
  rw [As_exec_eq] at h
  cases hm : FindStringSubmatch e.err with
  | none => simp [hm] at h
  | some m =>
    simp only [hm, Prod.mk.injEq, Target.exec.injEq, true_and] at h
    subst h
    obtain ⟨pre, rest, hs, hrest⟩ := FindStringSubmatch_eq_some _ _ hm
    obtain ⟨post, h1, h2, h3, -, -, h5⟩ := matchHere_eq_some rest m hrest
    have h4 := matchHere_Err_last rest m hrest
    simp only [litTemplate, litExecuting, litAt, litErr] at h1 h4 h5
    refine ⟨pre, post, ?_, ?_, h3, h4, ?_⟩
    · rw [hs, h1]; simp [fillTarget]
    · rcases h2 with h2 | ⟨p, h2⟩
      · exact Or.inl h2
      · exact Or.inr ⟨p, by rw [h2]; rfl⟩
    · intro T1 E1 P1 b hT1 hE1 hP1 hb
      refine h5 T1 E1 P1 b hT1 hE1 hP1 ?_
      rw [hs] at hb
      simp only [List.append_assoc] at hb ⊢
      exact List.append_cancel_left hb

/-- C20 at the text `template: t: executing "e" at <.a>: x >: y`: `At` is `.a>: x `
and `ErrText` is `y`. -/
theorem As_exec_greedy_witness :
    (∀ t : ErrTemplateExecError,
      (ErrRenderError.mk "template: t: executing \"e\" at <.a>: x >: y".toList .nil).As (.exec t)
        = (true, .exec
          { Err := "template: t: executing \"e\" at <.a>: x >: y".toList,
            Template := "t".toList, Executing := "e".toList, At := ".a>: x ".toList,
            ErrText := "y".toList, vars := .nil })) ∧
    ¬ ">: ".toList <:+: "y".toList :=
  ⟨fun t => by
      rw [As_exec_eq]
      have h : FindStringSubmatch "template: t: executing \"e\" at <.a>: x >: y".toList
          = some ⟨"t".toList, "e".toList, ".a>: x ".toList, "y".toList⟩ := by decide
      simp only [h, fillTarget],
   (As_exec_greedy (ErrRenderError.mk "template: t: executing \"e\" at <.a>: x >: y".toList .nil)
      ⟨[], [], [], [], [], .nil⟩
      { Err := "template: t: executing \"e\" at <.a>: x >: y".toList,
        Template := "t".toList, Executing := "e".toList, At := ".a>: x ".toList,
        ErrText := "y".toList, vars := .nil }
      (by
        rw [As_exec_eq]
        have h : FindStringSubmatch "template: t: executing \"e\" at <.a>: x >: y".toList
            = some ⟨"t".toList, "e".toList, ".a>: x ".toList, "y".toList⟩ := by decide
        simp only [h, fillTarget])).elim
    (fun _ hp => hp.elim (fun _ hq => hq.2.2.2.1))⟩

end NomadPack
